import Mathlib

/-!
# Verification of the Chronix memory-management core

A shallow embedding, in Lean 4, of the memory-management core of the
Chronix kernel (RISC-V 64 / LoongArch 64), together with theorems settling
the frozen specification claims.  Pure data (permissions, page-table
entries, VM areas) becomes Lean structures; the stateful kernel operations
(page-fault handling, heap resizing, mmap/munmap, frame allocation) become
explicit state-passing functions; a kernel `panic!` or failed assert is
modelled by `Option`/`Except` returning `none`/`.error`.

Sources embedded:
* `os/src/mm/vm/riscv64.rs` — `UserVmSpace`, `UserVmArea` and their
  operations (page-fault resolution, COW cloning, heap break, mmap, unmap);
* `os/hal/src/component/pagetable/loongarch64.rs` — the LoongArch
  multi-level page table (`find_pte_create`, `map`, `unmap`);
* `os/src/mm/allocator/frame_allocator.rs` — the bitmap frame allocator
  front-end.

Components of the kernel that are documented in the specification but whose
source is not part of this snapshot (the riscv64 page-table implementation,
the `RangeMap` interval map, `PageFaultAccessType`, the `StrongArc`
reference-counted frame handle, the `bitmap_allocator` crate) are modelled
from the specification; each such definition carries a doc comment starting
with `Modelled from the spec:`.
-/

namespace Chronix

/-- Permission set from `hal/src/component/pagetable/mod.rs`
(`bitflags MapPerm`): readable, writable, executable, user-accessible,
copy-on-write. -/
structure MapPerm where
  r : Bool
  w : Bool
  x : Bool
  u : Bool
  c : Bool
deriving DecidableEq, Repr

namespace MapPerm

/-- Embeds `MapPerm::empty()` -/
def empty : MapPerm := ⟨false, false, false, false, false⟩

/-- Embeds `perm.insert(MapPerm::W)` -/
def insertW (p : MapPerm) : MapPerm := { p with w := true }

/-- Embeds `perm.remove(MapPerm::W)` -/
def removeW (p : MapPerm) : MapPerm := { p with w := false }

/-- Embeds `perm.insert(MapPerm::C)` -/
def insertC (p : MapPerm) : MapPerm := { p with c := true }

/-- Embeds `perm.remove(MapPerm::C)` -/
def removeC (p : MapPerm) : MapPerm := { p with c := false }

end MapPerm

/-!
## LoongArch 64 page table
(`os/hal/src/component/pagetable/loongarch64.rs`)

Physical memory holding the page-table pages is modelled as a total map
from a table's physical page number to its array of 512 entries.  The
frame allocator that `find_pte_create` draws intermediate tables from is
modelled by a fresh-ppn counter (the source calls
`self.alloc.alloc(1).unwrap()`; exhaustion is out of scope of claim C7).
-/

/-- Embeds `PageLevel` from the loongarch64 page-table source: Huge = 0 (1 GiB),
Big = 1 (2 MiB), Small = 2 (4 KiB). -/
inductive PageLevel where
  | huge
  | big
  | small
deriving DecidableEq, Repr

namespace PageLevel

/-- Embeds `PageLevel::page_count` -/
def pageCount : PageLevel → Nat
  | .huge => 512 * 512
  | .big => 512
  | .small => 1

/-- The level's index in a root-to-leaf walk (the discriminant of the
Rust enum; `PageLevel::from(i)`). -/
def toIdx : PageLevel → Nat
  | .huge => 0
  | .big => 1
  | .small => 2

end PageLevel

/-- LoongArch `PageTableEntry`: a raw 64-bit word.  Flag bit positions from
the `PTEFlags` bitflags: V = bit 0, W = bit 8, C = bit 9, NR = bit 61,
NX = bit 62, PLV = bits 2,3; the ppn is stored at bit 10. -/
structure LaPte where
  bits : Nat
deriving DecidableEq, Repr

/-- LoongArch physical-address width is not part of this source snapshot;
`PPN_WIDTH = PA_WIDTH - PAGE_SIZE_BITS` per `constant/mod.rs`.  The value
only scales the ppn mask in `LaPte.ppn`. -/
def laPpnWidth : Nat := 36

namespace LaPte

/-- Embeds `PTEFlags::from(MapPerm)` followed by the layout of
`PageTableEntry::new`: `ppn << 10 | flags` with V set when `valid`. -/
def new (ppn : Nat) (perm : MapPerm) (valid : Bool) : LaPte :=
  let f0 : Nat := if perm.u then (1 <<< 2) + (1 <<< 3) else 0
  let f1 : Nat := if perm.r then 0 else (1 <<< 61)
  let f2 : Nat := if perm.w then (1 <<< 8) else 0
  let f3 : Nat := if perm.x then 0 else (1 <<< 62)
  let f4 : Nat := if perm.c then (1 <<< 9) else 0
  let f5 : Nat := if valid then 1 else 0
  ⟨(ppn % (2 ^ laPpnWidth)) <<< 10 + f0 + f1 + f2 + f3 + f4 + f5⟩

/-- Embeds `PageTableEntry::empty()` -/
def empty : LaPte := ⟨0⟩

/-- Embeds `PageTableEntryHal::is_valid`: `bits & V != 0`. -/
def isValid (pte : LaPte) : Bool := pte.bits % 2 == 1

/-- Embeds `PageTableEntry::ppn`: `bits >> 10 & ((1 << PPN_WIDTH) - 1)`. -/
def ppn (pte : LaPte) : Nat := (pte.bits >>> 10) % (2 ^ laPpnWidth)

end LaPte

/-- The LoongArch page-table state: root table ppn, the contents of every
table page (ppn ↦ index ↦ entry), and the fresh-ppn counter standing for
the frame allocator. -/
structure LaPageTable where
  rootPpn : Nat
  mem : Nat → Nat → LaPte
  fresh : Nat

/-- Embeds `VirtPageNum::indexes` for a 3-level table: 9 index bits per level,
root level first. -/
def vpnIndexes (vpn : Nat) : List Nat :=
  [(vpn >>> 18) % 512, (vpn >>> 9) % 512, vpn % 512]

namespace LaPageTable

/-- Write one entry of one table page. -/
def write (pt : LaPageTable) (tbl idx : Nat) (e : LaPte) : LaPageTable :=
  { pt with mem := fun t i => if t = tbl ∧ i = idx then e else pt.mem t i }

/-- One step of the `find_pte_create` walk: at table `tbl`, remaining
index list `idxs` numbered from `i`.  Returns the address `(tbl, idx)` of
the entry at the requested level — the source breaks out of the loop with
`result = Some(pte)` as soon as `PageLevel::from(i) == level`, WITHOUT
inspecting the entry's validity — or `none` if the walk runs out of
levels (the source's `result` staying `None`). -/
def findPteCreateGo (pt : LaPageTable) (level : PageLevel) :
    List Nat → Nat → Nat → Option ((Nat × Nat) × LaPageTable)
  | [], _, _ => none
  | idx :: rest, i, tbl =>
    if PageLevel.toIdx level = i then
      some ((tbl, idx), pt)
    else
      let pte := pt.mem tbl idx
      if pte.isValid then
        findPteCreateGo pt level rest (i + 1) pte.ppn
      else
        let newPpn := pt.fresh
        let pt' := { pt with
          fresh := pt.fresh + 1,
          mem := fun t i' =>
            if t = newPpn then LaPte.empty
            else if t = tbl ∧ i' = idx then LaPte.new newPpn MapPerm.empty true
            else pt.mem t i' }
        findPteCreateGo pt' level rest (i + 1) newPpn

/-- Embeds `PageTable::find_pte_create` (loongarch64): walk `vpn.indexes()` from
the root, creating zeroed intermediate tables on demand, and stop at the
requested level. -/
def findPteCreate (pt : LaPageTable) (vpn : Nat) (level : PageLevel) :
    Option ((Nat × Nat) × LaPageTable) :=
  findPteCreateGo pt level (vpnIndexes vpn) 0 pt.rootPpn

/-- Embeds `PageTable::map` (loongarch64): `find_pte_create(vpn, level)` then
`*pte = PageTableEntry::new(ppn, perm, true)`.  The `.expect("vpn ... is
mapped")` panic is the `.error` case. -/
def map (pt : LaPageTable) (vpn ppn : Nat) (perm : MapPerm)
    (level : PageLevel) : Except Unit LaPageTable :=
  match findPteCreate pt vpn level with
  | none => .error ()
  | some ((tbl, idx), pt') => .ok (pt'.write tbl idx (LaPte.new ppn perm true))

/-- The empty page table: root at ppn 0 zero-filled, allocation counter
starting above the root. -/
def initial : LaPageTable := ⟨0, fun _ _ => LaPte.empty, 1⟩

end LaPageTable

/-- The page table after mapping vpn 5 → ppn 100 at the Small level in the
empty table (the leaf lands in table page 2, slot 5). -/
def laAfterFirstMap : LaPageTable :=
  (LaPageTable.initial.map 5 100 MapPerm.empty .small).toOption.getD
    LaPageTable.initial

/-- The page table after a second, double, map of the same vpn 5 to a
different ppn 200. -/
def laAfterSecondMap : LaPageTable :=
  (laAfterFirstMap.map 5 200 MapPerm.empty .small).toOption.getD
    laAfterFirstMap

/-!
## User-side page table (riscv64)

The riscv64 page-table implementation consumed by `os/src/mm/vm/riscv64.rs`
is not part of this source snapshot; it is modelled from the spec.  All
user-space mappings made by the embedded code are Small (4 KiB) leaves
(`handle_page_fault`, `alloc_mmap_area` and `UserVmArea::map` over
single-page frames all pass `PageLevel::Small`), so the table is a map
from vpn to leaf entry.
-/

/-- Modelled from the spec: a leaf page-table entry `{ ppn, perm, valid }`
of the riscv64 page table (implementation missing from src/). -/
structure Pte where
  ppn : Nat
  perm : MapPerm
  valid : Bool
deriving DecidableEq, Repr

/-- Modelled from the spec: the riscv64 page table, restricted to the
Small-leaf mappings the embedded user-VM code performs: vpn ↦ entry. -/
def PageTable := Nat → Option Pte

namespace PageTable

/-- The empty page table (kernel half not modelled). -/
def empty : PageTable := fun _ => none

/-- Overwrite the slot of `vpn` (the `&mut PTE` write-back). -/
def set (pt : PageTable) (vpn : Nat) (e : Pte) : PageTable :=
  fun v => if v = vpn then some e else pt v

/-- Modelled from the spec: `find_pte(vpn)` walks until a leaf or invalid
slot; returns the leaf PTE if found valid. -/
def findPte (pt : PageTable) (vpn : Nat) : Option Pte :=
  match pt vpn with
  | none => none
  | some pte => if pte.valid then some pte else none

/-- Modelled from the spec: `map(vpn, ppn, perm, Small)` installs a leaf
PTE; pre-condition: the target slot is invalid — asserts (panics, `none`)
on double-map. -/
def map (pt : PageTable) (vpn ppn : Nat) (perm : MapPerm) :
    Option PageTable :=
  match pt.findPte vpn with
  | some _ => none
  | none => some (pt.set vpn ⟨ppn, perm, true⟩)

/-- Modelled from the spec: `unmap(vpn)` clears the leaf PTE; panics
(`none`) if unmapped. -/
def unmap (pt : PageTable) (vpn : Nat) : Option PageTable :=
  match pt vpn with
  | none => none
  | some _ => some (fun v => if v = vpn then none else pt v)

/-- Modelled from the spec: `translate_vpn(vpn)` returns the mapped ppn of
a valid leaf. -/
def translateVpn (pt : PageTable) (vpn : Nat) : Option Nat :=
  (pt.findPte vpn).map (·.ppn)

end PageTable

/-- Modelled from the spec: the page-fault access type,
`access_type ∈ {R, W, X}`. -/
inductive AccessType where
  | read
  | write
  | exec
deriving DecidableEq, Repr

/-- Modelled from the spec: `PageFaultAccessType::can_access(perm)` — the
fault is permitted by the area's perm, with the `C` bit standing in for
the suppressed `W` (a write to a COW area must pass this check so that
step 2 of the fault policy can run). -/
def AccessType.canAccess : AccessType → MapPerm → Bool
  | .read, p => p.r
  | .write, p => p.w || p.c
  | .exec, p => p.x

/-- Embeds `access_type.contains(PageFaultAccessType::WRITE)` -/
def AccessType.isWrite : AccessType → Bool
  | .write => true
  | _ => false

/-- Modelled from the spec: `MmapFlags` — `MAP_FIXED`, `MAP_PRIVATE`,
`MAP_SHARED`, `MAP_ANONYMOUS` (the `syscall/mm.rs` definition is missing
from src/). -/
structure MmapFlags where
  fixed : Bool
  priv : Bool
  shared : Bool
  anon : Bool
deriving DecidableEq, Repr

/-- Embeds `UserVmAreaType` from `os/src/mm/vm` (variants as used by
`riscv64.rs`). -/
inductive UserVmAreaType where
  | data
  | heap
  | stack
  | trapContext
  | mmap
  | shm
deriving DecidableEq, Repr

/-- Embeds `PAGE_SIZE` (riscv64 constants). -/
def PAGE_SIZE : Nat := 4096

/-- Embeds `VirtAddr::floor`: the vpn of the page containing the address. -/
def vaFloor (va : Nat) : Nat := va / PAGE_SIZE

/-- Embeds `VirtAddr::ceil`: the vpn just past the address, page-rounded up. -/
def vaCeil (va : Nat) : Nat := (va + PAGE_SIZE - 1) / PAGE_SIZE

/-- The contents of one 4 KiB page, abstracted to an atom: `zero` is the
zero-filled page, `raw n` an unspecified initial content, and
`prefixZero d k` the first `k` bytes of a page with content `d` followed
by a zero tail (the last-partial-page case of file-backed demand
paging). -/
inductive PageData where
  | zero
  | raw (n : Nat)
  | prefixZero (d : PageData) (k : Nat)
deriving DecidableEq, Repr

/-!
## Shared frames and the frame-allocator state

A `SharedFrame` (`StrongArc<FrameTracker>`) over a single page is
identified by its frame's start ppn — the allocator hands out fresh,
disjoint ranges, so the start ppn is a unique identity.  The observable
strong count (`get_owners`) lives in `owners`.  Page contents are
abstracted to one `PageData` atom per frame (`mem`); a byte-for-byte copy
of a page becomes copying the atom.  Drops of `SharedFrame`s are not
modelled: no claim reads an owner count after a drop. -/
structure FrameSt where
  owners : Nat → Nat
  mem : Nat → PageData
  fresh : Nat
  budget : Nat

namespace FrameSt

/-- Embeds `FrameAllocator.alloc_tracker(1)`: `None` on exhaustion, else a fresh
single-page frame. -/
def allocTracker1 (st : FrameSt) : Option (Nat × FrameSt) :=
  if st.budget = 0 then none
  else some (st.fresh, { st with fresh := st.fresh + 1, budget := st.budget - 1 })

/-- Embeds `StrongArc::new_in(frame, SlabAllocator)`: the new handle is the sole
owner. -/
def newShared (st : FrameSt) (ppn : Nat) : FrameSt :=
  { st with owners := fun p => if p = ppn then 1 else st.owners p }

/-- Embeds `StrongArc::clone`: one more owner of the frame. -/
def incrShared (st : FrameSt) (ppn : Nat) : FrameSt :=
  { st with owners := fun p => if p = ppn then st.owners p + 1 else st.owners p }

/-- Embeds `range_ppn.get_slice_mut::<u8>().fill(0)`: the page becomes the zero
page. -/
def zeroFill (st : FrameSt) (ppn : Nat) : FrameSt :=
  { st with mem := fun p => if p = ppn then .zero else st.mem p }

/-- Embeds `dst.copy_from_slice(src)` page copy: `dst`'s atom becomes `src`'s. -/
def copyPage (st : FrameSt) (dst src : Nat) : FrameSt :=
  { st with mem := fun p => if p = dst then st.mem src else st.mem p }

/-- The partial copy of the last file-backed page: first `k` bytes from
`src`, zero tail. -/
def copyPrefixZero (st : FrameSt) (dst src k : Nat) : FrameSt :=
  { st with mem := fun p => if p = dst then .prefixZero (st.mem src) k else st.mem p }

end FrameSt

/-- Modelled from the spec: the per-inode page cache consumed through
`Inode::read_page_at(offset)`, as a read-only environment: inode id and
page-aligned offset to the cache page's frame ppn, `none` past the end of
the file.  (Cache insertion on miss is invisible to the embedded claims.) -/
structure Env where
  cache : Nat → Nat → Option Nat

/-!
## The per-area frame map

`frames: BTreeMap<VPN, SharedFrame>` becomes an association list sorted by
key; a `SharedFrame` is its frame's start ppn. -/
abbrev Frames := List (Nat × Nat)

namespace Frames

/-- Embeds `frames.get(&vpn)` -/
def lookup (fs : Frames) (vpn : Nat) : Option Nat :=
  match fs with
  | [] => none
  | (k, v) :: rest => if k = vpn then some v else lookup rest vpn

/-- Embeds `frames.insert(vpn, frame)`: sorted insert, replacing an existing
binding of the same key. -/
def insert (fs : Frames) (vpn ppn : Nat) : Frames :=
  match fs with
  | [] => [(vpn, ppn)]
  | (k, v) :: rest =>
    if vpn < k then (vpn, ppn) :: (k, v) :: rest
    else if vpn = k then (vpn, ppn) :: rest
    else (k, v) :: insert rest vpn ppn

/-- Replace the frame bound at `vpn` (the `*frame = new_frame` write
through `get_mut`), leaving other bindings alone. -/
def setVal (fs : Frames) (vpn ppn : Nat) : Frames :=
  fs.map (fun kv => if kv.1 = vpn then (kv.1, ppn) else kv)

/-- Embeds `frames.split_off(&p)`: `self` keeps keys `< p`, the result takes keys
`≥ p`. -/
def splitOff (fs : Frames) (p : Nat) : Frames × Frames :=
  (fs.filter (fun kv => kv.1 < p), fs.filter (fun kv => p ≤ kv.1))

/-- The key list of the map. -/
def keys (fs : Frames) : List Nat := fs.map (·.1)

end Frames

/-- Embeds `UserVmArea` (fields per the spec data model and the uses in
`os/src/mm/vm/riscv64.rs`): byte-address range `[start, stop)`, type,
permission, per-vpn frame map, optional backing inode, file offset at
`start`, file-backed length, mmap flags. -/
structure UserVmArea where
  start : Nat
  stop : Nat
  vmaType : UserVmAreaType
  mapPerm : MapPerm
  frames : Frames
  file : Option Nat
  offset : Nat
  len : Nat
  flags : MmapFlags
deriving DecidableEq, Repr

namespace UserVmArea

/-- Embeds `UserVmArea::new(range_va, type, perm)` -/
def new (start stop : Nat) (t : UserVmAreaType) (perm : MapPerm) :
    UserVmArea :=
  ⟨start, stop, t, perm, [], none, 0, 0, ⟨false, false, false, false⟩⟩

/-- Embeds `UserVmArea::new_mmap(range_va, perm, flags, file, offset, len)` -/
def newMmap (start stop : Nat) (perm : MapPerm) (flags : MmapFlags)
    (file : Option Nat) (offset len : Nat) : UserVmArea :=
  ⟨start, stop, .mmap, perm, [], file, offset, len, flags⟩

/-- Embeds `range_vpn()` = `[floor(start), ceil(end))` -/
def startVpn (a : UserVmArea) : Nat := vaFloor a.start

/-- End of `range_vpn()`. -/
def endVpn (a : UserVmArea) : Nat := vaCeil a.stop

/-- Embeds `split_off(p)`: detach `[p, end)` as a new area, reassigning `frames`
by key; for file-backed areas recompute `offset`/`len` of both halves.
Call sites guarantee `startVpn ≤ p` (Rust would otherwise panic on the
`usize` subtraction). Returns `(remaining self, detached tail)`. -/
def splitOff (a : UserVmArea) (p : Nat) : UserVmArea × UserVmArea :=
  let newOffset := if a.file.isSome
    then a.offset + (p - a.startVpn) * PAGE_SIZE else 0
  let newLen := if a.file.isSome
    then (if a.len < newOffset - a.offset then 0 else a.len - (newOffset - a.offset))
    else 0
  let selfLen := if a.file.isSome then a.len - newLen else a.len
  let (lo, hi) := a.frames.splitOff p
  let lower : UserVmArea :=
    { a with stop := p * PAGE_SIZE, frames := lo, len := selfLen }
  let upper : UserVmArea :=
    { a with
      start := p * PAGE_SIZE
      frames := hi
      offset := newOffset
      len := newLen }
  (lower, upper)

/-- Embeds `UserVmArea::map(page_table)`: install a (Small) leaf for every frame
the area owns; `none` when the page table's double-map assert fires. -/
def mapAll (a : UserVmArea) (pt : PageTable) : Option PageTable :=
  go a.frames pt
where
  go : Frames → PageTable → Option PageTable
    | [], pt => some pt
    | (vpn, ppn) :: rest, pt =>
      match pt.map vpn ppn a.mapPerm with
      | none => none
      | some pt' => go rest pt'

/-- Embeds `UserVmArea::unmap(page_table)`: clear the leaf of every vpn in
`frames`; `none` when the page table's not-mapped panic fires. -/
def unmapAll (a : UserVmArea) (pt : PageTable) : Option PageTable :=
  go a.frames pt
where
  go : Frames → PageTable → Option PageTable
    | [], pt => some pt
    | (vpn, _) :: rest, pt =>
      match pt.unmap vpn with
      | none => none
      | some pt' => go rest pt'

end UserVmArea

/-- Embeds `frames.clone()` of a COW clone: a `StrongArc::clone` per binding, so
one more owner of every shared frame of the map. -/
def incrAllShared (st : FrameSt) (fs : Frames) : FrameSt :=
  fs.foldl (fun s kv => s.incrShared kv.2) st

/-- The loop of `clone_cow`: for every frame key,
`page_table.find_pte(vpn).unwrap()` then
`pte.set_flags(PTEFlags::from(perm) | PTEFlags::V)`; `none` when the
unwrap panics. -/
def setFlagsAll (pt : PageTable) (perm : MapPerm) :
    List Nat → Option PageTable
  | [] => some pt
  | vpn :: rest =>
    match pt.findPte vpn with
    | none => none
    | some pte =>
      setFlagsAll (pt.set vpn { pte with perm := perm, valid := true })
        perm rest

namespace UserVmArea

/-- Embeds `UserVmArea::clone_cow(page_table)`: `Err` for TrapContext; for a
writable area move `W` into `C` in the area perm and in every live PTE;
for an already-COW area refresh the PTE flags; the returned area shares
the same frame map (`frames.clone()` of `StrongArc`s).  Outer `none` is a
kernel panic (`find_pte(..).unwrap()`), inner `.error ()` is the
`Err(())` result.  Result: `(mutated self, cloned area, page table,
frame state)`. -/
def cloneCow (a : UserVmArea) (pt : PageTable) (st : FrameSt) :
    Option (Except Unit (UserVmArea × UserVmArea × PageTable × FrameSt)) :=
  if a.vmaType = .trapContext then
    some (.error ())
  else if a.mapPerm.w then
    let perm := a.mapPerm.insertC.removeW
    match setFlagsAll pt perm a.frames.keys with
    | none => none
    | some pt' =>
      let a' := { a with mapPerm := perm }
      some (.ok (a', a', pt', incrAllShared st a.frames))
  else if a.mapPerm.c then
    match setFlagsAll pt a.mapPerm a.frames.keys with
    | none => none
    | some pt' => some (.ok (a, a, pt', incrAllShared st a.frames))
  else
    some (.ok (a, a, pt, incrAllShared st a.frames))

/-- The frame loop of `impl Clone for UserVmArea`: for every binding
allocate a fresh frame (`alloc_tracker(count).unwrap()`, panic `none` on
exhaustion), copy the page bytes, and rebuild the map in key order. -/
def cloneDeepFrames (st : FrameSt) :
    Frames → Option (Frames × FrameSt)
  | [] => some ([], st)
  | (k, ppn) :: rest =>
    match st.allocTracker1 with
    | none => none
    | some (np, st1) =>
      let st2 := (st1.copyPage np ppn).newShared np
      match cloneDeepFrames st2 rest with
      | none => none
      | some (fs, st3) => some ((k, np) :: fs, st3)

/-- Embeds `impl Clone for UserVmArea`: deep-copy every frame, all other fields
cloned as-is. -/
def cloneDeep (a : UserVmArea) (st : FrameSt) :
    Option (UserVmArea × FrameSt) :=
  match cloneDeepFrames st a.frames with
  | none => none
  | some (fs, st') => some ({ a with frames := fs }, st')

/-- The zero-page fix-up, written out identically at the bss, beyond-file-
end, heap/stack and anonymous-private-mmap sites of `handle_page_fault`:
allocate (`ok_or(())?`), `fill(0)`, map with the area's perm, record the
new `SharedFrame`. -/
def zeroPageFault (a : UserVmArea) (pt : PageTable) (st : FrameSt)
    (vpn : Nat) : Option (Except Unit (UserVmArea × PageTable × FrameSt)) :=
  match st.allocTracker1 with
  | none => some (.error ())
  | some (nf, st1) =>
    let st2 := (st1.zeroFill nf).newShared nf
    match pt.map vpn nf a.mapPerm with
    | none => none
    | some pt' =>
      some (.ok ({ a with frames := a.frames.insert vpn nf }, pt', st2))

/-- The `UserVmAreaType::Data` arm of the demand-paging match (no valid
PTE): file-backed paging with the partial-page, private-write, shared-
read and beyond-file-end sub-cases, or a plain zero page for bss. -/
def dataFault (a : UserVmArea) (env : Env) (pt : PageTable) (st : FrameSt)
    (vpn : Nat) (access : AccessType) :
    Option (Except Unit (UserVmArea × PageTable × FrameSt)) :=
  match a.file with
  | none => zeroPageFault a pt st vpn
  | some inode =>
    let areaOffset := (vpn - a.startVpn) * PAGE_SIZE
    let offset := a.offset + areaOffset
    if offset % PAGE_SIZE ≠ 0 then none
    else if areaOffset < a.len then
      if a.len - areaOffset < PAGE_SIZE then
        let pageOffset := a.len - areaOffset
        match st.allocTracker1 with
        | none => some (.error ())
        | some (nf, st1) =>
          match env.cache inode offset with
          | none => some (.error ())
          | some pagePpn =>
            let st2 := (st1.copyPrefixZero nf pagePpn pageOffset).newShared nf
            match pt.map vpn nf a.mapPerm with
            | none => none
            | some pt' =>
              some (.ok ({ a with frames := a.frames.insert vpn nf }, pt', st2))
      else if access.isWrite then
        match st.allocTracker1 with
        | none => some (.error ())
        | some (nf, st1) =>
          match env.cache inode offset with
          | none => some (.error ())
          | some pagePpn =>
            let st2 := (st1.copyPage nf pagePpn).newShared nf
            match pt.map vpn nf a.mapPerm with
            | none => none
            | some pt' =>
              some (.ok ({ a with frames := a.frames.insert vpn nf }, pt', st2))
      else
        match env.cache inode offset with
        | none => some (.error ())
        | some pagePpn =>
          let newPerm := if a.mapPerm.w
            then a.mapPerm.insertC.removeW else a.mapPerm
          match pt.map vpn pagePpn newPerm with
          | none => none
          | some pt' =>
            some (.ok ({ a with frames := a.frames.insert vpn pagePpn },
              pt', st.incrShared pagePpn))
    else
      zeroPageFault a pt st vpn

/-- The `UserVmAreaType::Mmap` arm of the demand-paging match: shared and
private file mappings (all failures there are `unwrap` panics, `none`),
and the anonymous cases. -/
def mmapFault (a : UserVmArea) (env : Env) (pt : PageTable) (st : FrameSt)
    (vpn : Nat) (access : AccessType) :
    Option (Except Unit (UserVmArea × PageTable × FrameSt)) :=
  if ¬ a.flags.anon then
    match a.file with
    | none => none
    | some inode =>
      let offset := a.offset + (vpn - a.startVpn) * PAGE_SIZE
      if offset % PAGE_SIZE ≠ 0 then none
      else if a.flags.shared then
        match env.cache inode offset with
        | none => none
        | some pagePpn =>
          match pt.map vpn pagePpn a.mapPerm with
          | none => none
          | some pt' =>
            some (.ok ({ a with frames := a.frames.insert vpn pagePpn },
              pt', st.incrShared pagePpn))
      else if access.isWrite then
        match env.cache inode offset with
        | none => none
        | some pagePpn =>
          match st.allocTracker1 with
          | none => none
          | some (nf, st1) =>
            let st2 := (st1.copyPage nf pagePpn).newShared nf
            match pt.map vpn nf a.mapPerm with
            | none => none
            | some pt' =>
              some (.ok ({ a with frames := a.frames.insert vpn nf }, pt', st2))
      else
        match env.cache inode offset with
        | none => none
        | some pagePpn =>
          let newPerm := if a.mapPerm.w
            then a.mapPerm.insertC.removeW else a.mapPerm
          match pt.map vpn pagePpn newPerm with
          | none => none
          | some pt' =>
            some (.ok ({ a with frames := a.frames.insert vpn pagePpn },
              pt', st.incrShared pagePpn))
  else if a.flags.priv then
    if a.flags.shared then none
    else zeroPageFault a pt st vpn
  else
    some (.ok (a, pt, st))

/-- Embeds `UserVmArea::handle_page_fault(page_table, vpn, access_type)`: the
fault-resolution policy of `os/src/mm/vm/riscv64.rs` lines 850–1027.
Outer `none` is a kernel panic (including the `panic!("do something")` of
the Shm arm), `.error ()` is `Err(())` (caller delivers SIGSEGV), `.ok`
carries the mutated `(self, page_table, frame state)`. -/
def handlePageFault (a : UserVmArea) (env : Env) (pt : PageTable)
    (st : FrameSt) (vpn : Nat) (access : AccessType) :
    Option (Except Unit (UserVmArea × PageTable × FrameSt)) :=
  if ¬ access.canAccess a.mapPerm then
    some (.error ())
  else
    match pt.findPte vpn with
    | some pte =>
      if ¬ access.isWrite ∨ ¬ pte.perm.c then
        some (.error ())
      else
        match a.frames.lookup vpn with
        | none => some (.error ())
        | some f =>
          if st.owners f = 1 then
            let newPerm := pte.perm.removeC.insertW
            some (.ok (a, pt.set vpn { pte with perm := newPerm, valid := true }, st))
          else
            match st.allocTracker1 with
            | none => some (.error ())
            | some (nf, st1) =>
              let st2 := (st1.newShared nf).copyPage nf f
              let a' := { a with frames := a.frames.setVal vpn nf }
              let newPerm := a.mapPerm.removeC.insertW
              some (.ok (a', pt.set vpn ⟨nf, newPerm, true⟩, st2))
    | none =>
      match a.vmaType with
      | .trapContext => some (.error ())
      | .data => dataFault a env pt st vpn access
      | .stack => zeroPageFault a pt st vpn
      | .heap => zeroPageFault a pt st vpn
      | .mmap => mmapFault a env pt st vpn access
      | .shm => none

end UserVmArea

/-!
## The interval map of areas

Modelled from the spec: `RangeMap<VirtAddr, T>` (the `range_map` crate is
missing from src/) — a map of non-overlapping half-open byte ranges,
iterated in ascending range order; kept as a list sorted by range
start. -/
abbrev RangeMap (α : Type) := List ((Nat × Nat) × α)

namespace RangeMap

/-- Two half-open ranges intersect. -/
def overlap (r s : Nat × Nat) : Bool :=
  Nat.blt (max r.1 s.1) (min r.2 s.2)

/-- Embeds `is_range_free`: the range meets no entry of the map. -/
def isFree (m : RangeMap α) (r : Nat × Nat) : Bool :=
  m.all (fun e => ! overlap e.1 r)

/-- Embeds `get(va)` / `get_mut(va)`: the entry whose range contains `va`. -/
def get (m : RangeMap α) (va : Nat) : Option ((Nat × Nat) × α) :=
  m.find? (fun e => Nat.ble e.1.1 va && Nat.blt va e.1.2)

/-- Sorted-position insertion (keys are non-overlapping, so sorting by
start preserves the map order). -/
def insertSorted : RangeMap α → (Nat × Nat) → α → RangeMap α
  | [], r, v => [(r, v)]
  | e :: rest, r, v =>
    if r.1 < e.1.1 then (r, v) :: e :: rest
    else e :: insertSorted rest r v

/-- Embeds `try_insert(range, value)`: fails on an empty range or a collision
with an existing entry. -/
def tryInsert (m : RangeMap α) (r : Nat × Nat) (v : α) :
    Option (RangeMap α) :=
  if r.1 < r.2 ∧ isFree m r then some (insertSorted m r v) else none

/-- Embeds `force_remove_one(range)`: remove the entry keyed exactly `range`
(`none` when there is none — the caller treats this as impossible). -/
def forceRemoveOne (m : RangeMap α) (r : Nat × Nat) :
    Option (α × RangeMap α) :=
  match m with
  | [] => none
  | e :: rest =>
    if e.1 = r then some (e.2, rest)
    else (forceRemoveOne rest r).map (fun p => (p.1, e :: p.2))

/-- Replace the value stored under the exact key `r` (the write-back of a
`get_mut` borrow). -/
def setValAt (m : RangeMap α) (r : Nat × Nat) (v : α) : RangeMap α :=
  m.map (fun e => if e.1 = r then (e.1, v) else e)

/-- Embeds `extend_back(start..newEnd)`: grow the entry starting at `start` to
the new back; fails when no such entry exists, the back would move
backwards, or the grown part collides with another entry. -/
def extendBack (m : RangeMap α) (r : Nat × Nat) : Option (RangeMap α) :=
  match m.find? (fun e => e.1.1 == r.1) with
  | none => none
  | some e =>
    if e.1.2 ≤ r.2 ∧ (m.all fun e' => e'.1 = e.1 || ! overlap e'.1 (e.1.2, r.2))
    then some (m.map fun e' => if e'.1 = e.1 then (r, e'.2) else e')
    else none

/-- Embeds `reduce_back(start..newEnd)`: shrink the entry starting at `start` to
the new, non-empty back; fails when no such entry exists or the new back
is not inside the old range. -/
def reduceBack (m : RangeMap α) (r : Nat × Nat) : Option (RangeMap α) :=
  match m.find? (fun e => e.1.1 == r.1) with
  | none => none
  | some e =>
    if r.1 < r.2 ∧ r.2 ≤ e.1.2
    then some (m.map fun e' => if e'.1 = e.1 then (r, e'.2) else e')
    else none

/-- Embeds `find_free_range(window, len)`: the lowest start of a free range of
`len` bytes inside the window (first-fit).  Any free run can be slid down
until it hits the window bottom or the end of an entry, so the minimum
over those candidate starts is the first fit. -/
def findFreeRange (m : RangeMap α) (window : Nat × Nat) (len : Nat) :
    Option Nat :=
  ((window.1 :: m.map (fun e => e.1.2)).filter fun c =>
    Nat.ble window.1 c && Nat.ble (c + len) window.2 &&
      isFree m (c, c + len)).min?

end RangeMap

/-- Embeds `SysError` values surfaced by the embedded operations. -/
inductive SysError where
  | enomem
  | efault
deriving DecidableEq, Repr

/-!
## Layout constants (riscv64, `os/hal/src/component/constant/riscv64.rs`
plus the derived values of `constant/mod.rs`)
-/

/-- Embeds `USER_ADDR_SPACE.end` -/
def USER_ADDR_SPACE_END : Nat := 0x0000003fffffffff

/-- Embeds `USER_TRAP_CONTEXT_TOP = USER_ADDR_SPACE.end` -/
def USER_TRAP_CONTEXT_TOP : Nat := USER_ADDR_SPACE_END

/-- Embeds `USER_TRAP_CONTEXT_BOTTOM = TOP - USER_TRAP_CONTEXT_SIZE` with
`USER_TRAP_CONTEXT_SIZE = PAGE_SIZE`. -/
def USER_TRAP_CONTEXT_BOTTOM : Nat := USER_TRAP_CONTEXT_TOP - PAGE_SIZE

/-- Embeds `USER_STACK_TOP = USER_TRAP_CONTEXT_BOTTOM` -/
def USER_STACK_TOP : Nat := USER_TRAP_CONTEXT_BOTTOM

/-- Embeds `USER_STACK_BOTTOM = USER_STACK_TOP - USER_STACK_SIZE`,
`USER_STACK_SIZE = 16 * 4096`. -/
def USER_STACK_BOTTOM : Nat := USER_STACK_TOP - 16 * 4096

/-- Embeds `USER_FILE_END = USER_STACK_BOTTOM` -/
def USER_FILE_END : Nat := USER_STACK_BOTTOM

/-- Embeds `USER_FILE_BEG = USER_FILE_END - USER_FILE_SIZE`,
`USER_FILE_SIZE = 0x200000000`. -/
def USER_FILE_BEG : Nat := USER_FILE_END - 0x200000000

/-- Embeds `USER_SHARE_END = USER_FILE_BEG` -/
def USER_SHARE_END : Nat := USER_FILE_BEG

/-- Embeds `USER_SHARE_BEG = USER_SHARE_END - USER_SHARE_SIZE`,
`USER_SHARE_SIZE = 0x200000000`. -/
def USER_SHARE_BEG : Nat := USER_SHARE_END - 0x200000000

/-- Embeds `USER_FILE_PER_PAGES = 8` -/
def USER_FILE_PER_PAGES : Nat := 8

/-!
## User VM space (`os/src/mm/vm/riscv64.rs`, `impl UserVmSpaceHal`)
-/

/-- Embeds `UserVmSpace`: page table, interval map of areas, heap bottom.  (The
kernel half of the root table is outside the model.) -/
structure UserVmSpace where
  pt : PageTable
  areas : RangeMap UserVmArea
  heapBottom : Nat

namespace UserVmSpace

/-- Embeds `push_area(area, None)`: insert into the interval map (panic on
collision) and `area.map(&mut self.page_table)`. -/
def pushArea (s : UserVmSpace) (a : UserVmArea) : Option UserVmSpace :=
  match s.areas.tryInsert (a.start, a.stop) a with
  | none => none
  | some areas' =>
    match a.mapAll s.pt with
    | none => none
    | some pt' => some { s with areas := areas', pt := pt' }

/-- Embeds `find_heap()`: the area containing `heap_bottom_va`, if it is of Heap
type; returns it with its map key. -/
def findHeap (s : UserVmSpace) : Option ((Nat × Nat) × UserVmArea) :=
  match s.areas.get s.heapBottom with
  | none => none
  | some (key, a) => if a.vmaType = .heap then some (key, a) else none

/-- The tail of `reset_heap_break` once the heap area (with `range` its
`range_va`) is at hand: the source runs one `if` tree doing the
interval-map surgery (early `return range.end` on `extend_back` /
`reduce_back` errors) and then, over the same unchanged conditions, a
second `if` tree mutating the heap area itself; the two trees are fused
branch-wise here. -/
def resetHeapGrown (s : UserVmSpace) (st : FrameSt) (newBrk : Nat)
    (range : Nat × Nat) : Option (Nat × UserVmSpace × FrameSt) :=
  if range.2 ≤ newBrk then
    match s.areas.extendBack (range.1, newBrk) with
    | none => some (range.2, s, st)
    | some areas1 =>
      let s1 : UserVmSpace := { s with areas := areas1 }
      match s1.findHeap with
      | none => none
      | some (key, heap) =>
        let heap' := { heap with start := range.1, stop := newBrk }
        some (newBrk, { s1 with areas := s1.areas.setValAt key heap' }, st)
  else if range.1 < newBrk then
    match s.areas.reduceBack (range.1, newBrk) with
    | none => some (range.2, s, st)
    | some areas1 =>
      let s1 : UserVmSpace := { s with areas := areas1 }
      match s1.findHeap with
      | none => none
      | some (key, heap) =>
        let (heapL, right) := heap.splitOff (vaCeil newBrk)
        match right.unmapAll s1.pt with
        | none => none
        | some pt' =>
          some (newBrk,
            { s1 with pt := pt', areas := s1.areas.setValAt key heapL }, st)
  else
    some (range.2, s, st)

/-- Embeds `reset_heap_break(new_brk)`: create the heap `[heap_bottom, new_brk)`
when none exists and `new_brk > heap_bottom` (early-returning
`heap_bottom` otherwise), then grow / shrink / keep the heap;
`none` is a kernel panic (`push_area` collision or
`find_heap().unwrap()`). -/
def resetHeapBreak (s : UserVmSpace) (st : FrameSt) (newBrk : Nat) :
    Option (Nat × UserVmSpace × FrameSt) :=
  match s.findHeap with
  | some (_, heap) => resetHeapGrown s st newBrk (heap.start, heap.stop)
  | none =>
    if s.heapBottom < newBrk then
      let heapArea := UserVmArea.new s.heapBottom newBrk .heap
        ⟨true, true, false, true, false⟩
      match s.pushArea heapArea with
      | none => none
      | some s1 => resetHeapGrown s1 st newBrk (s.heapBottom, newBrk)
    else
      some (s.heapBottom, s, st)

/-- Embeds `UserVmSpace::unmap(va, len)`: locate the area containing `va`, remove
it, split off `[floor(va), …)`, unmap THAT WHOLE remainder (the source
unmaps `mid` before detaching the tail), detach the tail from
`ceil(va+len)`, and reinsert the non-empty head and tail.  `none` is a
kernel panic (missing exact key or an unmapped frame); `.error` is the
`EFAULT` of a failed reinsertion. -/
def unmap (s : UserVmSpace) (va len : Nat) :
    Option (Except SysError (Nat × UserVmSpace)) :=
  match s.areas.get va with
  | none => some (.ok (0, s))
  | some (_, area) =>
    match s.areas.forceRemoveOne (area.start, area.stop) with
    | none => none
    | some (left0, areas0) =>
      let (left, mid0) := left0.splitOff (vaFloor va)
      match mid0.unmapAll s.pt with
      | none => none
      | some pt' =>
        let (_, right) := mid0.splitOff (vaCeil (va + len))
        let s1 : UserVmSpace := { s with pt := pt', areas := areas0 }
        let afterLeft : Option (Except SysError UserVmSpace) :=
          if left.start < left.stop then
            match s1.areas.tryInsert (left.start, left.stop) left with
            | none => some (.error .efault)
            | some m => some (.ok { s1 with areas := m })
          else some (.ok s1)
        match afterLeft with
        | none => none
        | some (.error e) => some (.error e)
        | some (.ok s2) =>
          if right.start < right.stop then
            match s2.areas.tryInsert (right.start, right.stop) right with
            | none => some (.error .efault)
            | some m => some (.ok (0, { s2 with areas := m }))
          else some (.ok (0, s2))

/-- Embeds `UserVmSpace::handle_page_fault(va, access_type)`: dispatch to the
area containing `va` or fail. -/
def handlePageFault (s : UserVmSpace) (env : Env) (st : FrameSt)
    (va : Nat) (access : AccessType) :
    Option (Except Unit (UserVmSpace × FrameSt)) :=
  match s.areas.get va with
  | none => some (.error ())
  | some (key, area) =>
    match area.handlePageFault env s.pt st (vaFloor va) access with
    | none => none
    | some (.error e) => some (.error e)
    | some (.ok (a', pt', st')) =>
      some (.ok ({ s with pt := pt', areas := s.areas.setValAt key a' }, st'))

/-- The loop of `from_existed`: iterate the source areas in map order;
`clone_cow` each one into the child (`push_area`), falling back to a
deep `clone` when `clone_cow` returns `Err` (TrapContext).  Threads the
parent page table (mutated by `clone_cow`), the rebuilt parent entries
(`iter_mut` mutates areas in place), the child space and the frame
state. -/
def fromExistedGo : List ((Nat × Nat) × UserVmArea) → PageTable →
    List ((Nat × Nat) × UserVmArea) → UserVmSpace → FrameSt →
    Option (PageTable × List ((Nat × Nat) × UserVmArea) × UserVmSpace × FrameSt)
  | [], pt, acc, ret, st => some (pt, acc.reverse, ret, st)
  | (key, a) :: rest, pt, acc, ret, st =>
    match a.cloneCow pt st with
    | none => none
    | some (.ok (a1, newArea, pt1, st1)) =>
      match ret.pushArea newArea with
      | none => none
      | some ret1 => fromExistedGo rest pt1 ((key, a1) :: acc) ret1 st1
    | some (.error _) =>
      match a.cloneDeep st with
      | none => none
      | some (aClone, st1) =>
        match ret.pushArea aClone with
        | none => none
        | some ret1 => fromExistedGo rest pt ((key, a) :: acc) ret1 st1

/-- Embeds `UserVmSpace::from_existed(uvm_space, kvm_space)` (`fork`): child
starts from the kernel template (empty user half) with the parent's heap
bottom; each parent area is COW-cloned (or deep-copied) into it.
Returns `(mutated parent, child, frame state)`. -/
def fromExisted (uvm : UserVmSpace) (st : FrameSt) :
    Option (UserVmSpace × UserVmSpace × FrameSt) :=
  let ret0 : UserVmSpace :=
    { pt := PageTable.empty, areas := [], heapBottom := uvm.heapBottom }
  match fromExistedGo uvm.areas uvm.pt [] ret0 st with
  | none => none
  | some (pt', srcAreas, ret, st') =>
    some ({ uvm with pt := pt', areas := srcAreas }, ret, st')

/-- The eager-mapping loop of `alloc_mmap_area`: for each of the first
up-to-`USER_FILE_PER_PAGES` page offsets, stop at the first cache miss
(EOF); otherwise map the cache page — COW (`perm` minus `W` plus `C`,
and `C` inserted into the area's perm) for `MAP_PRIVATE`, the plain
`perm` for shared — and record the shared frame. -/
def mmapEagerLoop (env : Env) (fileId : Nat) (isPriv : Bool)
    (perm : MapPerm) : Nat → Nat → Nat → UserVmArea → PageTable →
    FrameSt → Option (UserVmArea × PageTable × FrameSt)
  | 0, _, _, vma, pt, st => some (vma, pt, st)
  | n + 1, off, vpn, vma, pt, st =>
    match env.cache fileId off with
    | none => some (vma, pt, st)
    | some pagePpn =>
      if isPriv then
        match pt.map vpn pagePpn perm.removeW.insertC with
        | none => none
        | some pt' =>
          mmapEagerLoop env fileId isPriv perm n (off + PAGE_SIZE) (vpn + 1)
            { vma with frames := vma.frames.insert vpn pagePpn,
                       mapPerm := vma.mapPerm.insertC }
            pt' (st.incrShared pagePpn)
      else
        match pt.map vpn pagePpn perm with
        | none => none
        | some pt' =>
          mmapEagerLoop env fileId isPriv perm n (off + PAGE_SIZE) (vpn + 1)
            { vma with frames := vma.frames.insert vpn pagePpn }
            pt' (st.incrShared pagePpn)

/-- Embeds `UserVmSpace::alloc_mmap_area(va, len, perm, flags, file, offset)`:
asserts `va` page-aligned (panic `none`); uses `[va, va+len)` when
`MAP_FIXED` is set and that range is free, otherwise the first free
range of `len` bytes in `[USER_FILE_BEG, USER_FILE_END)`
(`Err(ENOMEM)` when the window has none); builds the Mmap area, eagerly
maps the first pages through the page cache, pushes the area and returns
the chosen start. -/
def allocMmapArea (s : UserVmSpace) (st : FrameSt) (env : Env)
    (va len : Nat) (perm : MapPerm) (flags : MmapFlags)
    (fileId offset : Nat) :
    Option (Except SysError (Nat × UserVmSpace × FrameSt)) :=
  if va % PAGE_SIZE ≠ 0 then none
  else
    let rangeOpt : Option (Nat × Nat) :=
      if flags.fixed && s.areas.isFree (va, va + len) then
        some (va, va + len)
      else
        (s.areas.findFreeRange (USER_FILE_BEG, USER_FILE_END) len).map
          (fun c => (c, c + len))
    match rangeOpt with
    | none => some (.error .enomem)
    | some range =>
      let vma := UserVmArea.newMmap range.1 range.2 perm flags
        (some fileId) offset len
      let length := min len (USER_FILE_PER_PAGES * PAGE_SIZE)
      let n := (length + PAGE_SIZE - 1) / PAGE_SIZE
      match mmapEagerLoop env fileId flags.priv perm n offset
        vma.startVpn vma s.pt st with
      | none => none
      | some (vma', pt', st') =>
        match UserVmSpace.pushArea { s with pt := pt' } vma' with
        | none => none
        | some s' => some (.ok (range.1, s', st'))

/-- Embeds `UserVmSpace::alloc_anon_area(va, len, perm, flags, is_share)`:
asserts `va` page-aligned (panic `none`); with `MAP_FIXED` uses
`[va, va+len)` UNCONDITIONALLY (no freeness check — `push_area` panics on
a collision), otherwise the first free range of `len` bytes in
`[USER_SHARE_BEG, USER_SHARE_END)` (`Err(ENOMEM)` when none); pushes a
Shm area when shared, an anonymous Mmap area otherwise, and returns the
chosen start. -/
def allocAnonArea (s : UserVmSpace) (va len : Nat) (perm : MapPerm)
    (flags : MmapFlags) (isShare : Bool) :
    Option (Except SysError (Nat × UserVmSpace)) :=
  if va % PAGE_SIZE ≠ 0 then none
  else
    let rangeOpt : Option (Nat × Nat) :=
      if flags.fixed then some (va, va + len)
      else
        (s.areas.findFreeRange (USER_SHARE_BEG, USER_SHARE_END) len).map
          (fun c => (c, c + len))
    match rangeOpt with
    | none => some (.error .enomem)
    | some range =>
      let vma := if isShare then
          UserVmArea.new range.1 range.2 .shm perm
        else
          UserVmArea.newMmap range.1 range.2 perm flags none 0 len
      match s.pushArea vma with
      | none => none
      | some s' => some (.ok (range.1, s'))

end UserVmSpace

/-!
## Frame allocator (`os/src/mm/allocator/frame_allocator.rs`)

The `BitMapFrameAllocator` delegates to the external `bitmap_allocator`
crate.  Modelled from the spec: a bit-map over the initialised ppn range,
bit `i` set meaning frame `base + i` is free; `alloc_contiguous` scans
for `n` consecutive set bits first-fit. -/
structure BitMapFrameAllocator where
  base : Nat
  size : Nat
  free : Nat → Bool

namespace BitMapFrameAllocator

/-- Bits `i, …, i+n-1` are inside the map and all free. -/
def fits (al : BitMapFrameAllocator) (i n : Nat) : Bool :=
  Nat.ble (i + n) al.size && (List.range n).all fun k => al.free (i + k)

/-- The first-fit scan of `alloc_contiguous(None, n, 0)`. -/
def firstFit (al : BitMapFrameAllocator) (n : Nat) : Option Nat :=
  ((List.range al.size).filter fun i => al.fits i n).head?

/-- Mark bits `[i, i+n)` allocated or free. -/
def setBits (al : BitMapFrameAllocator) (i n : Nat) (b : Bool) :
    BitMapFrameAllocator :=
  { al with free := fun j => if i ≤ j ∧ j < i + n then b else al.free j }

/-- Embeds `FrameAllocator::alloc(cnt)`: first-fit `cnt` consecutive free bits,
clear them, return `[base+i, base+i+cnt)`. -/
def alloc (al : BitMapFrameAllocator) (cnt : Nat) :
    Option ((Nat × Nat) × BitMapFrameAllocator) :=
  match al.firstFit cnt with
  | none => none
  | some i => some ((al.base + i, al.base + i + cnt), al.setBits i cnt false)

/-- Embeds `FrameAllocator::dealloc(range_ppn)`: a no-op for an empty range,
otherwise set the range's bits free again. -/
def dealloc (al : BitMapFrameAllocator) (r : Nat × Nat) :
    BitMapFrameAllocator :=
  if r.2 - r.1 = 0 then al
  else al.setBits (r.1 - al.base) (r.2 - r.1) true

/-- The number of free frames (set bits) in the map. -/
def freeCount (al : BitMapFrameAllocator) : Nat :=
  (List.range al.size).countP fun i => al.free i

end BitMapFrameAllocator

/-!
## Well-formedness invariants

The states the kernel actually reaches satisfy these; the theorems
assume them where the source relies on them (asserted or implicit
invariants of the spec's data model).
-/

/-- The frame map is strictly sorted by key (the `BTreeMap` shape). -/
def FramesWf (fs : Frames) : Prop :=
  fs.Pairwise fun x y => x.1 < y.1

instance (fs : Frames) : Decidable (FramesWf fs) :=
  List.instDecidablePairwise fs

/-- A well-formed user VM area: page-aligned non-empty range, sorted
frame map, every frame key inside `range_vpn()`. -/
def UserVmArea.wf (a : UserVmArea) : Prop :=
  a.start % PAGE_SIZE = 0 ∧ a.stop % PAGE_SIZE = 0 ∧ a.start < a.stop ∧
  FramesWf a.frames ∧
  ∀ kv ∈ a.frames, a.startVpn ≤ kv.1 ∧ kv.1 < a.endVpn

instance (a : UserVmArea) : Decidable a.wf := by
  unfold UserVmArea.wf; infer_instance

/-- The page table holds, at every key of the frame map, a valid leaf
pointing at that binding's frame (spec invariant 1). -/
def ptMapsFrames (pt : PageTable) (fs : Frames) : Bool :=
  fs.all fun kv =>
    match pt kv.1 with
    | some pte => pte.ppn == kv.2 && pte.valid
    | none => false

/-- A well-formed user VM space: every entry is keyed by its area's
range, areas are well-formed, and entry ranges are pairwise disjoint. -/
def UserVmSpace.wf (s : UserVmSpace) : Prop :=
  (∀ e ∈ s.areas, e.1.1 = e.2.start ∧ e.1.2 = e.2.stop ∧ e.2.wf) ∧
  s.areas.Pairwise fun e e' => RangeMap.overlap e.1 e'.1 = false

instance (s : UserVmSpace) : Decidable s.wf := by
  unfold UserVmSpace.wf; exact instDecidableAnd

/-- The total number of frame bindings of a list of interval-map
entries — the number of page copies a sequence of deep clones needs. -/
def sumFrames (l : List ((Nat × Nat) × UserVmArea)) : Nat :=
  (l.map fun e => e.2.frames.length).sum

/-- Structural well-formedness of one interval-map entry: keyed by its
area's page-aligned non-empty range, sorted frame map, frame keys inside
`range_vpn()`. -/
def EntryWf (e : (Nat × Nat) × UserVmArea) : Prop :=
  e.1 = (e.2.start, e.2.stop) ∧ e.2.start % PAGE_SIZE = 0 ∧
  e.2.stop % PAGE_SIZE = 0 ∧ e.2.start < e.2.stop ∧
  FramesWf e.2.frames ∧
  ∀ kv ∈ e.2.frames, e.2.startVpn ≤ kv.1 ∧ kv.1 < e.2.endVpn

instance (e : (Nat × Nat) × UserVmArea) : Decidable (EntryWf e) := by
  unfold EntryWf; infer_instance

/-!
## Concrete instances used by witnesses and counterexamples
-/

/-- Permissions `R|U|C` — a COW page after fork. -/
def c1Perm : MapPerm := ⟨true, false, false, true, true⟩

/-- A COW leaf entry at frame 7. -/
def c1Pte : Pte := ⟨7, c1Perm, true⟩

/-- A one-entry page table: vpn `0x10` COW-mapped. -/
def c1Pt : PageTable := fun v => if v = 0x10 then some c1Pte else none

/-- A COW data area `[0x10000, 0x11000)` owning frame 7 at vpn `0x10`. -/
def c1Area : UserVmArea :=
  { start := 0x10000, stop := 0x11000, vmaType := .data, mapPerm := c1Perm,
    frames := [(0x10, 7)], file := none, offset := 0, len := 0,
    flags := ⟨false, false, false, false⟩ }

/-- A frame state in which frame 7 has a single owner. -/
def c1St : FrameSt :=
  ⟨fun p => if p = 7 then 1 else 0, fun _ => .raw 5, 100, 10⟩

/-- An empty page cache. -/
def emptyEnv : Env := ⟨fun _ _ => none⟩

/-- An anonymous-shared (Shm) area `[0x20000, 0x21000)`, `R|W|U`. -/
def c9Area : UserVmArea :=
  { start := 0x20000, stop := 0x21000, vmaType := .shm,
    mapPerm := ⟨true, true, false, true, false⟩, frames := [], file := none,
    offset := 0, len := 0, flags := ⟨false, false, false, false⟩ }

/-- A fresh frame state with spare budget. -/
def c9St : FrameSt := ⟨fun _ => 0, fun _ => .raw 0, 0, 4⟩

/-- A read-only (`R|U`) file-backed data area `[0x10000, 0x12000)` whose
file-backed length is one page, so vpn `0x11` lies past the file end. -/
def c5Area : UserVmArea :=
  { start := 0x10000, stop := 0x12000, vmaType := .data,
    mapPerm := ⟨true, false, false, true, false⟩, frames := [],
    file := some 1, offset := 0, len := 0x1000,
    flags := ⟨false, false, false, false⟩ }

/-- The frame state for the C5 scenario; the next fresh frame is 100. -/
def c5St : FrameSt := ⟨fun _ => 0, fun _ => .raw 5, 100, 10⟩

/-- The outcome of a read fault at vpn `0x11` of `c5Area` (past the file
end). -/
def c5Result : Option (Except Unit (UserVmArea × PageTable × FrameSt)) :=
  c5Area.handlePageFault emptyEnv PageTable.empty c5St 0x11 .read

/-- The PTE the C5 fault installs at vpn `0x11`. -/
def c5InstalledPte : Option Pte :=
  match c5Result with
  | some (.ok (_, pt, _)) => pt 0x11
  | _ => none

/-- The content of frame 100, the frame the C5 fault allocates. -/
def c5InstalledPage : Option PageData :=
  match c5Result with
  | some (.ok (_, _, st)) => some (st.mem 100)
  | _ => none

/-- A heap area `[0x20000, 0x24000)`. -/
def c10Heap : UserVmArea :=
  UserVmArea.new 0x20000 0x24000 .heap ⟨true, true, false, true, false⟩

/-- A blocking mmap area `[0x25000, 0x26000)` above the heap. -/
def c10Blocker : UserVmArea :=
  UserVmArea.new 0x25000 0x26000 .mmap ⟨true, true, false, true, false⟩

/-- A space whose heap cannot grow past `0x25000`. -/
def c10Space : UserVmSpace :=
  { pt := PageTable.empty,
    areas := [((0x20000, 0x24000), c10Heap), ((0x25000, 0x26000), c10Blocker)],
    heapBottom := 0x20000 }

/-- A frame state for the C10 scenario. -/
def c10St : FrameSt := ⟨fun _ => 0, fun _ => .raw 0, 0, 4⟩

/-- The 16 frames of the C3 area: vpn `0x100+i` bound to ppn `50+i`. -/
def c3Frames : Frames := (List.range 16).map fun i => (0x100 + i, 50 + i)

/-- A fully mapped private anonymous area `[0x100000, 0x110000)`. -/
def c3Area : UserVmArea :=
  { start := 0x100000, stop := 0x110000, vmaType := .mmap,
    mapPerm := ⟨true, true, false, true, false⟩, frames := c3Frames,
    file := none, offset := 0, len := 0x10000,
    flags := ⟨false, true, false, true⟩ }

/-- The page table holding the area's 16 leaf mappings. -/
def c3Pt : PageTable := fun v =>
  if 0x100 ≤ v ∧ v < 0x110
  then some ⟨50 + (v - 0x100), ⟨true, true, false, true, false⟩, true⟩
  else none

/-- The space holding only `c3Area`. -/
def c3Space : UserVmSpace :=
  { pt := c3Pt, areas := [((0x100000, 0x110000), c3Area)], heapBottom := 0 }

/-- The outcome of `unmap(0x104000, 0x2000)` on `c3Space`. -/
def c3Result : Option (Except SysError (Nat × UserVmSpace)) :=
  c3Space.unmap 0x104000 0x2000

/-- The space left behind by the C3 unmap. -/
def c3SpaceAfter : UserVmSpace :=
  match c3Result with
  | some (.ok (_, s)) => s
  | _ => c3Space

/-- The value `unmap` returned in the C3 scenario (`none` on panic or
error). -/
def c3RetVal : Option Nat :=
  match c3Result with
  | some (.ok (n, _)) => some n
  | _ => none

/-- An empty user VM space whose heap bottom is `0x20000`. -/
def c4Space : UserVmSpace :=
  { pt := PageTable.empty, areas := [], heapBottom := 0x20000 }

/-- A frame state for the C4 scenario. -/
def c4St : FrameSt := ⟨fun _ => 0, fun _ => .raw 0, 0, 4⟩

/-- An anonymous mmap area occupying the bottom page of the share
window. -/
def c6Blocker : UserVmArea :=
  UserVmArea.newMmap USER_SHARE_BEG (USER_SHARE_BEG + 0x1000)
    ⟨true, true, false, true, false⟩ ⟨false, true, false, true⟩ none 0
    0x1000

/-- A space in which the bottom page of the share window is taken. -/
def c6Space : UserVmSpace :=
  { pt := PageTable.empty,
    areas := [((USER_SHARE_BEG, USER_SHARE_BEG + 0x1000), c6Blocker)],
    heapBottom := 0 }

/-- A page cache holding one page (frame 40) for inode 7 at offset 0. -/
def c6Env : Env := ⟨fun i o => if i = 7 ∧ o = 0 then some 40 else none⟩

/-- Permissions `R|W|U` — a private writable area before fork. -/
def c2Perm : MapPerm := ⟨true, true, false, true, false⟩

/-- A writable data area `[0x30000, 0x31000)` owning frame 9 at vpn
`0x30`. -/
def c2Area : UserVmArea :=
  { start := 0x30000, stop := 0x31000, vmaType := .data, mapPerm := c2Perm,
    frames := [(0x30, 9)], file := none, offset := 0, len := 0,
    flags := ⟨false, false, false, false⟩ }

/-- A one-entry page table: vpn `0x30` mapped writable at frame 9. -/
def c2Pt : PageTable := fun v => if v = 0x30 then some ⟨9, c2Perm, true⟩ else none

/-- A parent space with the single writable area, about to fork. -/
def c2Space : UserVmSpace :=
  { pt := c2Pt, areas := [((0x30000, 0x31000), c2Area)],
    heapBottom := 0x20000 }

/-- A frame state in which frame 9 has a single owner. -/
def c2St : FrameSt := ⟨fun p => if p = 9 then 1 else 0, fun _ => .raw 3, 100, 10⟩

end Chronix

namespace Chronix

/-!
## Helper lemmas
-/

theorem overlap_false {r s : Nat × Nat} :
    RangeMap.overlap r s = false ↔ ¬ (max r.1 s.1 < min r.2 s.2) := by
  unfold RangeMap.overlap
  rw [← Bool.not_eq_true, Nat.blt_eq]

theorem mem_insertSorted_self {α : Type} (m : RangeMap α) (r : Nat × Nat)
    (v : α) : (r, v) ∈ RangeMap.insertSorted m r v := by
  induction m with
  | nil => simp [RangeMap.insertSorted]
  | cons e rest ih =>
    by_cases h : r.1 < e.1.1 <;> simp [RangeMap.insertSorted, h, ih]

theorem mem_insertSorted_of_mem {α : Type} {m : RangeMap α}
    {e' : (Nat × Nat) × α} (h : e' ∈ m) (r : Nat × Nat) (v : α) :
    e' ∈ RangeMap.insertSorted m r v := by
  induction m with
  | nil => cases h
  | cons e rest ih =>
    rcases List.mem_cons.1 h with h1 | h1
    · by_cases h2 : r.1 < e.1.1 <;> simp [RangeMap.insertSorted, h2, h1]
    · by_cases h2 : r.1 < e.1.1 <;> simp [RangeMap.insertSorted, h2, h1, ih h1]

theorem get_eq_some_facts {α : Type} {m : RangeMap α} {va : Nat}
    {e : (Nat × Nat) × α} (h : RangeMap.get m va = some e) :
    e ∈ m ∧ e.1.1 ≤ va ∧ va < e.1.2 := by
  have hm := List.mem_of_find?_eq_some h
  have hp := List.find?_some h
  rw [Bool.and_eq_true, Nat.ble_eq, Nat.blt_eq] at hp
  exact ⟨hm, hp.1, hp.2⟩

theorem get_of_mem {α : Type} {m : RangeMap α}
    (hpw : m.Pairwise fun e e' => RangeMap.overlap e.1 e'.1 = false)
    {key : Nat × Nat} {v : α} (hmem : (key, v) ∈ m)
    {va : Nat} (h1 : key.1 ≤ va) (h2 : va < key.2) :
    RangeMap.get m va = some (key, v) := by
  induction m with
  | nil => cases hmem
  | cons e rest ih =>
    rcases List.mem_cons.1 hmem with hh | hh
    · subst hh
      unfold RangeMap.get
      rw [List.find?_cons_of_pos]
      rw [Bool.and_eq_true, Nat.ble_eq, Nat.blt_eq]
      exact ⟨h1, h2⟩
    · have hdisj : RangeMap.overlap e.1 key = false :=
        (List.pairwise_cons.1 hpw).1 (key, v) hh
      have hnc : ¬ (e.1.1 ≤ va ∧ va < e.1.2) := by
        rw [overlap_false] at hdisj
        omega
      unfold RangeMap.get
      rw [List.find?_cons_of_neg, ← RangeMap.get]
      · exact ih (List.pairwise_cons.1 hpw).2 hh
      · rw [Bool.and_eq_true, Nat.ble_eq, Nat.blt_eq]
        exact hnc

theorem findStart_of_mem {α : Type} {m : RangeMap α}
    (hpw : m.Pairwise fun e e' => RangeMap.overlap e.1 e'.1 = false)
    (hne : ∀ e ∈ m, e.1.1 < e.1.2)
    {key : Nat × Nat} {v : α} (hmem : (key, v) ∈ m) :
    m.find? (fun e => e.1.1 == key.1) = some (key, v) := by
  induction m with
  | nil => cases hmem
  | cons e rest ih =>
    rcases List.mem_cons.1 hmem with hh | hh
    · subst hh
      rw [List.find?_cons_of_pos]
      simp
    · by_cases hs : e.1.1 = key.1
      · exfalso
        have hdisj : RangeMap.overlap e.1 key = false :=
          (List.pairwise_cons.1 hpw).1 (key, v) hh
        have he1 := hne e (List.mem_cons_self e rest)
        have he2 := hne (key, v) (List.mem_cons_of_mem e hh)
        rw [overlap_false] at hdisj
        simp at he2
        omega
      · rw [List.find?_cons_of_neg]
        · exact ih (List.pairwise_cons.1 hpw).2 (fun e he =>
            hne e (List.mem_cons_of_mem _ he)) hh
        · simp [hs]

theorem overlap_comm {r s : Nat × Nat} :
    RangeMap.overlap r s = RangeMap.overlap s r := by
  unfold RangeMap.overlap
  rw [Nat.max_comm, Nat.min_comm]

theorem isFree_spec {α : Type} {m : RangeMap α} {r : Nat × Nat} :
    RangeMap.isFree m r = true ↔
      ∀ e ∈ m, RangeMap.overlap e.1 r = false := by
  unfold RangeMap.isFree
  rw [List.all_eq_true]
  simp only [Bool.not_eq_true']

theorem overlap_empty {r : Nat × Nat} {b : Nat} :
    RangeMap.overlap r (b, b) = false := by
  rw [overlap_false]
  omega

theorem find?_insertSorted {α : Type} (m : RangeMap α) (r : Nat × Nat)
    (v : α) (p : (Nat × Nat) × α → Bool) (hp : p (r, v) = true)
    (hm : ∀ e ∈ m, p e = false) :
    (RangeMap.insertSorted m r v).find? p = some (r, v) := by
  induction m with
  | nil => simp [RangeMap.insertSorted, List.find?_cons_of_pos, hp]
  | cons e rest ih =>
    by_cases h2 : r.1 < e.1.1
    · simp only [RangeMap.insertSorted, if_pos h2]
      rw [List.find?_cons_of_pos _ hp]
    · simp only [RangeMap.insertSorted, if_neg h2]
      rw [List.find?_cons_of_neg _ ?_]
      · exact ih fun e' he' => hm e' (List.mem_cons_of_mem _ he')
      · simp [hm e (List.mem_cons_self e rest)]

theorem mem_of_insertSorted {α : Type} {m : RangeMap α} {r : Nat × Nat}
    {v : α} {e : (Nat × Nat) × α}
    (h : e ∈ RangeMap.insertSorted m r v) : e = (r, v) ∨ e ∈ m := by
  induction m with
  | nil => simp [RangeMap.insertSorted] at h; exact Or.inl h
  | cons e0 rest ih =>
    by_cases h2 : r.1 < e0.1.1
    · simp only [RangeMap.insertSorted, if_pos h2] at h
      rcases List.mem_cons.1 h with h3 | h3
      · exact Or.inl h3
      · exact Or.inr h3
    · simp only [RangeMap.insertSorted, if_neg h2] at h
      rcases List.mem_cons.1 h with h3 | h3
      · exact Or.inr (h3 ▸ List.mem_cons_self e0 rest)
      · rcases ih h3 with h4 | h4
        · exact Or.inl h4
        · exact Or.inr (List.mem_cons_of_mem _ h4)

theorem pairwise_insertSorted {α : Type} {m : RangeMap α} {r : Nat × Nat}
    {v : α}
    (hpw : m.Pairwise fun e e' => RangeMap.overlap e.1 e'.1 = false)
    (hfree : ∀ e ∈ m, RangeMap.overlap e.1 r = false) :
    (RangeMap.insertSorted m r v).Pairwise
      fun e e' => RangeMap.overlap e.1 e'.1 = false := by
  induction m with
  | nil => simp [RangeMap.insertSorted]
  | cons e0 rest ih =>
    by_cases h2 : r.1 < e0.1.1
    · simp only [RangeMap.insertSorted, if_pos h2]
      refine List.pairwise_cons.2 ⟨?_, hpw⟩
      intro e' he'
      rcases List.mem_cons.1 he' with h3 | h3
      · rw [h3, overlap_comm]
        exact hfree e0 (List.mem_cons_self e0 rest)
      · rw [overlap_comm]
        exact hfree e' (List.mem_cons_of_mem _ h3)
    · simp only [RangeMap.insertSorted, if_neg h2]
      refine List.pairwise_cons.2 ⟨?_, ?_⟩
      · intro e' he'
        rcases mem_of_insertSorted he' with h3 | h3
        · rw [h3]
          exact hfree e0 (List.mem_cons_self e0 rest)
        · exact (List.pairwise_cons.1 hpw).1 e' h3
      · exact ih (List.pairwise_cons.1 hpw).2
          fun e' he' => hfree e' (List.mem_cons_of_mem _ he')

theorem findHeap_inv {s : UserVmSpace} {key : Nat × Nat}
    {heap : UserVmArea} (h : s.findHeap = some (key, heap)) :
    s.areas.get s.heapBottom = some (key, heap) ∧
      heap.vmaType = .heap := by
  unfold UserVmSpace.findHeap at h
  split at h
  · cases h
  · rename_i k0 a0 heq
    split at h
    · rename_i ht
      cases h
      exact ⟨heq, ht⟩
    · cases h

theorem framesWf_keys_ne {fs : Frames} (h : FramesWf fs) :
    fs.Pairwise fun x y => x.1 ≠ y.1 :=
  h.imp Nat.ne_of_lt

theorem lookup_mem {fs : Frames} {k f : Nat}
    (h : fs.lookup k = some f) : (k, f) ∈ fs := by
  induction fs with
  | nil => cases h
  | cons kv rest ih =>
    unfold Frames.lookup at h
    by_cases hk : kv.1 = k
    · rw [if_pos hk] at h
      cases h
      have hkv : kv = (k, kv.2) := Prod.ext hk rfl
      rw [← hkv]
      exact List.mem_cons_self kv rest
    · rw [if_neg hk] at h
      exact List.mem_cons_of_mem _ (ih h)

theorem mapAllGo_spec (a : UserVmArea) (fs : Frames) (pt : PageTable)
    (hdis : fs.Pairwise fun x y => x.1 ≠ y.1)
    (hun : ∀ kv ∈ fs, pt kv.1 = none) :
    ∃ pt', UserVmArea.mapAll.go a fs pt = some pt' ∧
      (∀ v, (∀ kv ∈ fs, kv.1 ≠ v) → pt' v = pt v) ∧
      (∀ kv ∈ fs, pt' kv.1 = some ⟨kv.2, a.mapPerm, true⟩) := by
  induction fs generalizing pt with
  | nil =>
    exact ⟨pt, rfl, fun v _ => rfl, fun kv h => absurd h (List.not_mem_nil kv)⟩
  | cons kv rest ih =>
    have hk : pt kv.1 = none := hun kv (List.mem_cons_self kv rest)
    have hmap : pt.map kv.1 kv.2 a.mapPerm =
        some (pt.set kv.1 ⟨kv.2, a.mapPerm, true⟩) := by
      unfold PageTable.map PageTable.findPte
      rw [hk]
    have hrest : ∀ kv' ∈ rest, (pt.set kv.1 ⟨kv.2, a.mapPerm, true⟩) kv'.1 = none := by
      intro kv' h'
      have hne : kv'.1 ≠ kv.1 := by
        have := (List.pairwise_cons.1 hdis).1 kv' h'
        exact fun he => this he.symm
      unfold PageTable.set
      rw [if_neg hne]
      exact hun kv' (List.mem_cons_of_mem _ h')
    obtain ⟨pt', hgo, hpres, hmaps⟩ :=
      ih (pt.set kv.1 ⟨kv.2, a.mapPerm, true⟩)
        (List.pairwise_cons.1 hdis).2 hrest
    refine ⟨pt', ?_, ?_, ?_⟩
    · show UserVmArea.mapAll.go a (kv :: rest) pt = some pt'
      unfold UserVmArea.mapAll.go
      rw [show (kv : Nat × Nat) = (kv.1, kv.2) from rfl, hmap]
      exact hgo
    · intro v hv
      rw [hpres v (fun kv' h' => hv kv' (List.mem_cons_of_mem _ h'))]
      unfold PageTable.set
      rw [if_neg (fun he => hv kv (List.mem_cons_self kv rest) he.symm)]
    · intro kv' h'
      rcases List.mem_cons.1 h' with hh | hh
      · subst hh
        by_cases hin : ∀ kv2 ∈ rest, kv2.1 ≠ kv'.1
        · rw [hpres kv'.1 hin]
          unfold PageTable.set
          rw [if_pos rfl]
        · exfalso
          push_neg at hin
          obtain ⟨kv2, h2, he⟩ := hin
          exact (List.pairwise_cons.1 hdis).1 kv2 h2 he.symm
      · exact hmaps kv' hh

theorem unmapAllGo_spec (fs : Frames) (pt : PageTable)
    (hdis : fs.Pairwise fun x y => x.1 ≠ y.1)
    (hsome : ∀ kv ∈ fs, (pt kv.1).isSome) :
    ∃ pt', UserVmArea.unmapAll.go fs pt = some pt' ∧
      (∀ v, (∀ kv ∈ fs, kv.1 ≠ v) → pt' v = pt v) ∧
      (∀ kv ∈ fs, pt' kv.1 = none) := by
  induction fs generalizing pt with
  | nil =>
    exact ⟨pt, rfl, fun v _ => rfl, fun kv h => absurd h (List.not_mem_nil kv)⟩
  | cons kv rest ih =>
    have hk := hsome kv (List.mem_cons_self kv rest)
    obtain ⟨pte, hpte⟩ := Option.isSome_iff_exists.1 hk
    have hun : pt.unmap kv.1 =
        some (fun v => if v = kv.1 then none else pt v) := by
      unfold PageTable.unmap
      rw [hpte]
    have hrest : ∀ kv' ∈ rest,
        ((fun v => if v = kv.1 then none else pt v) kv'.1).isSome := by
      intro kv' h'
      have hne : kv'.1 ≠ kv.1 := by
        have := (List.pairwise_cons.1 hdis).1 kv' h'
        exact fun he => this he.symm
      simp only [if_neg hne]
      exact hsome kv' (List.mem_cons_of_mem _ h')
    obtain ⟨pt', hgo, hpres, hnone⟩ :=
      ih (fun v => if v = kv.1 then none else pt v)
        (List.pairwise_cons.1 hdis).2 hrest
    refine ⟨pt', ?_, ?_, ?_⟩
    · show UserVmArea.unmapAll.go (kv :: rest) pt = some pt'
      unfold UserVmArea.unmapAll.go
      rw [show (kv : Nat × Nat) = (kv.1, kv.2) from rfl, hun]
      exact hgo
    · intro v hv
      rw [hpres v (fun kv' h' => hv kv' (List.mem_cons_of_mem _ h'))]
      rw [if_neg (fun he => hv kv (List.mem_cons_self kv rest) he.symm)]
    · intro kv' h'
      rcases List.mem_cons.1 h' with hh | hh
      · subst hh
        by_cases hin : ∀ kv2 ∈ rest, kv2.1 ≠ kv'.1
        · rw [hpres kv'.1 hin]
          rw [if_pos rfl]
        · exfalso
          push_neg at hin
          obtain ⟨kv2, h2, he⟩ := hin
          exact (List.pairwise_cons.1 hdis).1 kv2 h2 he.symm
      · exact hnone kv' hh

theorem setFlagsAll_spec (pt : PageTable) (perm : MapPerm)
    (keys : List Nat) (hdis : keys.Pairwise (· ≠ ·))
    (hsome : ∀ k ∈ keys, ∃ pte, pt k = some pte ∧ pte.valid = true) :
    ∃ pt', setFlagsAll pt perm keys = some pt' ∧
      (∀ v, v ∉ keys → pt' v = pt v) ∧
      (∀ k ∈ keys, ∀ pte, pt k = some pte →
        pt' k = some ⟨pte.ppn, perm, true⟩) := by
  induction keys generalizing pt with
  | nil =>
    exact ⟨pt, rfl, fun v _ => rfl, fun k h => absurd h (List.not_mem_nil k)⟩
  | cons k rest ih =>
    obtain ⟨pte, hpte, hval⟩ := hsome k (List.mem_cons_self k rest)
    have hfind : pt.findPte k = some pte := by
      simp [PageTable.findPte, hpte, hval]
    have hrest : ∀ k' ∈ rest,
        ∃ pte', (pt.set k { pte with perm := perm, valid := true }) k' =
          some pte' ∧ pte'.valid = true := by
      intro k' h'
      by_cases hk : k' = k
      · subst hk
        exact ⟨_, by unfold PageTable.set; rw [if_pos rfl], rfl⟩
      · obtain ⟨pte', h1, h2⟩ := hsome k' (List.mem_cons_of_mem _ h')
        exact ⟨pte', by unfold PageTable.set; rw [if_neg hk]; exact h1, h2⟩
    obtain ⟨pt', hgo, hpres, hsets⟩ :=
      ih (pt.set k { pte with perm := perm, valid := true })
        (List.pairwise_cons.1 hdis).2 hrest
    refine ⟨pt', ?_, ?_, ?_⟩
    · show setFlagsAll pt perm (k :: rest) = some pt'
      unfold setFlagsAll
      rw [hfind]
      exact hgo
    · intro v hv
      rw [hpres v (fun h' => hv (List.mem_cons_of_mem _ h'))]
      unfold PageTable.set
      rw [if_neg (fun he => hv (by rw [he]; exact List.mem_cons_self k rest))]
    · intro k' h' pte' hpte'
      rcases List.mem_cons.1 h' with hh | hh
      · subst hh
        have hkr : k' ∉ rest := fun h2 =>
          (List.pairwise_cons.1 hdis).1 k' h2 rfl
        rw [hpres k' hkr]
        unfold PageTable.set
        rw [if_pos rfl]
        rw [hpte] at hpte'
        cases hpte'
        rfl
      · have hne : k ≠ k' := (List.pairwise_cons.1 hdis).1 k' hh
        have : (pt.set k { pte with perm := perm, valid := true }) k' =
            some pte' := by
          unfold PageTable.set
          rw [if_neg (fun he => hne he.symm)]
          exact hpte'
        exact hsets k' hh pte' this

/-- Case `new_brk ≤ heap.start` of `reset_heap_break`: nothing changes,
the old end is returned. -/
theorem resetHeap_noop_lemma (s : UserVmSpace) (st : FrameSt)
    (newBrk : Nat) (key : Nat × Nat) (heap : UserVmArea)
    (hheap : s.findHeap = some (key, heap))
    (hpos : heap.start < heap.stop)
    (hle : newBrk ≤ heap.start) :
    s.resetHeapBreak st newBrk = some (heap.stop, s, st) := by
  have h1 : ¬ (heap.stop ≤ newBrk) := by omega
  have h2 : ¬ (heap.start < newBrk) := by omega
  unfold UserVmSpace.resetHeapBreak UserVmSpace.resetHeapGrown
  rw [hheap]
  simp [h1, h2]

/-- Case `heap.stop ≤ new_brk` of `reset_heap_break` with the grown range
free: the heap's back is extended to `new_brk`, which is returned; the
page table is untouched. -/
theorem resetHeap_extend_lemma (s : UserVmSpace) (st : FrameSt)
    (newBrk : Nat) (key : Nat × Nat) (heap : UserVmArea)
    (hheap : s.findHeap = some (key, heap))
    (hkey : key = (heap.start, heap.stop))
    (hpw : s.areas.Pairwise fun e e' => RangeMap.overlap e.1 e'.1 = false)
    (hne : ∀ e ∈ s.areas, e.1.1 < e.1.2)
    (hgrow : heap.stop ≤ newBrk)
    (hext : ∀ e ∈ s.areas, e.1 = key ∨
      RangeMap.overlap e.1 (heap.stop, newBrk) = false) :
    ∃ s', s.resetHeapBreak st newBrk = some (newBrk, s', st) ∧
      s'.pt = s.pt ∧ s'.heapBottom = s.heapBottom ∧
      ((heap.start, newBrk), { heap with stop := newBrk }) ∈ s'.areas := by
  subst hkey
  obtain ⟨hget, htype⟩ := findHeap_inv hheap
  obtain ⟨hmem, hb1, hb2⟩ := get_eq_some_facts hget
  simp only [] at hb1 hb2
  have hpos : heap.start < heap.stop := hne _ hmem
  have hfind : s.areas.find?
      (fun e => e.1.1 == ((heap.start, newBrk) : Nat × Nat).1) =
      some ((heap.start, heap.stop), heap) :=
    findStart_of_mem hpw hne hmem
  have hall : (s.areas.all fun e' =>
      e'.1 = ((heap.start, heap.stop) : Nat × Nat) ||
        ! RangeMap.overlap e'.1 (((heap.start, heap.stop) : Nat × Nat).2,
          newBrk)) = true := by
    rw [List.all_eq_true]
    intro e' he'
    rw [Bool.or_eq_true, decide_eq_true_eq, Bool.not_eq_true']
    exact hext e' he'
  have hExt : s.areas.extendBack (heap.start, newBrk) =
      some (s.areas.map fun e' =>
        if e'.1 = ((heap.start, heap.stop) : Nat × Nat)
        then ((heap.start, newBrk), e'.2) else e') := by
    unfold RangeMap.extendBack
    rw [hfind]
    simp [hgrow, hall]
  have hmem1 : ((heap.start, newBrk), heap) ∈ s.areas.map fun e' =>
      if e'.1 = ((heap.start, heap.stop) : Nat × Nat)
      then ((heap.start, newBrk), e'.2) else e' := by
    have := List.mem_map_of_mem (f := fun e' =>
      if e'.1 = ((heap.start, heap.stop) : Nat × Nat)
      then ((heap.start, newBrk), e'.2) else e') hmem
    simpa using this
  have hpw1 : (s.areas.map fun e' =>
      if e'.1 = ((heap.start, heap.stop) : Nat × Nat)
      then ((heap.start, newBrk), e'.2) else e').Pairwise
      fun e e' => RangeMap.overlap e.1 e'.1 = false := by
    rw [List.pairwise_map]
    refine hpw.imp_of_mem ?_
    intro e e' hm hm' hdisj
    rw [overlap_false] at hdisj
    by_cases h1 : e.1 = ((heap.start, heap.stop) : Nat × Nat) <;>
      by_cases h2 : e'.1 = ((heap.start, heap.stop) : Nat × Nat)
    · exfalso
      rw [h1, h2] at hdisj
      simp at hdisj
      omega
    · rcases hext e' hm' with h3 | h3
      · exact absurd h3 h2
      · rw [if_pos h1, if_neg h2]
        show RangeMap.overlap (heap.start, newBrk) e'.1 = false
        rw [h1] at hdisj
        rw [overlap_false] at h3 ⊢
        simp at hdisj h3 ⊢
        omega
    · rcases hext e hm with h3 | h3
      · exact absurd h3 h1
      · rw [if_neg h1, if_pos h2]
        show RangeMap.overlap e.1 (heap.start, newBrk) = false
        rw [h2] at hdisj
        rw [overlap_false] at h3 ⊢
        simp at hdisj h3 ⊢
        omega
    · rw [if_neg h1, if_neg h2]
      rw [overlap_false]
      exact hdisj
  have hfh1 : UserVmSpace.findHeap
      { s with areas := s.areas.map fun e' =>
        if e'.1 = ((heap.start, heap.stop) : Nat × Nat)
        then ((heap.start, newBrk), e'.2) else e' } =
      some ((heap.start, newBrk), heap) := by
    unfold UserVmSpace.findHeap
    rw [show ({ s with areas := s.areas.map fun e' =>
        if e'.1 = ((heap.start, heap.stop) : Nat × Nat)
        then ((heap.start, newBrk), e'.2) else e' } : UserVmSpace).areas =
      s.areas.map fun e' =>
        if e'.1 = ((heap.start, heap.stop) : Nat × Nat)
        then ((heap.start, newBrk), e'.2) else e' from rfl]
    rw [show ({ s with areas := s.areas.map fun e' =>
        if e'.1 = ((heap.start, heap.stop) : Nat × Nat)
        then ((heap.start, newBrk), e'.2) else e' } : UserVmSpace).heapBottom =
      s.heapBottom from rfl]
    rw [get_of_mem hpw1 hmem1 (by simpa using hb1) (by simp; omega)]
    simp [htype]
  refine ⟨{ pt := s.pt, areas := RangeMap.setValAt (s.areas.map fun e' => if e'.1 = ((heap.start, heap.stop) : Nat × Nat) then ((heap.start, newBrk), e'.2) else e') (heap.start, newBrk) ({ heap with stop := newBrk }), heapBottom := s.heapBottom }, ?_, rfl, rfl, ?_⟩
  · unfold UserVmSpace.resetHeapBreak UserVmSpace.resetHeapGrown
    rw [hheap]
    simp [hgrow, hExt, hfh1]
  · show _ ∈ RangeMap.setValAt _ _ _
    unfold RangeMap.setValAt
    have := List.mem_map_of_mem (f := fun e =>
      if e.1 = ((heap.start, newBrk) : Nat × Nat)
      then (e.1, ({ heap with stop := newBrk } : UserVmArea)) else e)
      hmem1
    simpa using this

/-- Case "no heap yet" of `reset_heap_break` with `new_brk` above the
heap bottom and the range free: a heap area `[heap_bottom, new_brk)` is
created and `new_brk` returned. -/
theorem resetHeap_create_lemma (s : UserVmSpace) (st : FrameSt)
    (newBrk : Nat)
    (hnone : s.findHeap = none)
    (hlt : s.heapBottom < newBrk)
    (hpw : s.areas.Pairwise fun e e' => RangeMap.overlap e.1 e'.1 = false)
    (hne : ∀ e ∈ s.areas, e.1.1 < e.1.2)
    (hfree : RangeMap.isFree s.areas (s.heapBottom, newBrk) = true) :
    ∃ s', s.resetHeapBreak st newBrk = some (newBrk, s', st) ∧
      s'.pt = s.pt ∧ s'.heapBottom = s.heapBottom ∧
      ((s.heapBottom, newBrk), UserVmArea.new s.heapBottom newBrk .heap
        ⟨true, true, false, true, false⟩) ∈ s'.areas := by
  set hb := s.heapBottom with hhb
  set heapArea : UserVmArea := UserVmArea.new hb newBrk .heap
    ⟨true, true, false, true, false⟩ with hha
  have hfreeE := isFree_spec.1 hfree
  have hpush : s.pushArea heapArea = some { s with
      areas := RangeMap.insertSorted s.areas (hb, newBrk) heapArea } := by
    unfold UserVmSpace.pushArea RangeMap.tryInsert
    rw [if_pos ⟨hlt, hfree⟩]
    simp [UserVmArea.mapAll, UserVmArea.mapAll.go, hha, UserVmArea.new]
  have hstart : ∀ e ∈ s.areas, (e.1.1 == hb) = false := by
    intro e he
    rw [beq_eq_false_iff_ne]
    intro heq
    have h3 := hfreeE e he
    have h4 := hne e he
    rw [overlap_false] at h3
    omega
  have hfind : (RangeMap.insertSorted s.areas (hb, newBrk) heapArea).find?
      (fun e => e.1.1 == ((hb, newBrk) : Nat × Nat).1) =
      some ((hb, newBrk), heapArea) :=
    find?_insertSorted _ _ _ _ (by simp) (fun e he => hstart e he)
  have hall : ((RangeMap.insertSorted s.areas (hb, newBrk) heapArea).all
      fun e' => e'.1 = ((hb, newBrk) : Nat × Nat) ||
        ! RangeMap.overlap e'.1 (((hb, newBrk) : Nat × Nat).2, newBrk)) =
      true := by
    rw [List.all_eq_true]
    intro e' _
    rw [Bool.or_eq_true, Bool.not_eq_true']
    exact Or.inr overlap_empty
  have hExt : (RangeMap.insertSorted s.areas (hb, newBrk) heapArea).extendBack
      (hb, newBrk) =
      some ((RangeMap.insertSorted s.areas (hb, newBrk) heapArea).map
        fun e' => if e'.1 = ((hb, newBrk) : Nat × Nat)
          then ((hb, newBrk), e'.2) else e') := by
    unfold RangeMap.extendBack
    rw [hfind]
    simp [hall]
  have hmem1 : ((hb, newBrk), heapArea) ∈
      (RangeMap.insertSorted s.areas (hb, newBrk) heapArea).map
        fun e' => if e'.1 = ((hb, newBrk) : Nat × Nat)
          then ((hb, newBrk), e'.2) else e' := by
    have := List.mem_map_of_mem (f := fun e' =>
      if e'.1 = ((hb, newBrk) : Nat × Nat) then ((hb, newBrk), e'.2) else e')
      (mem_insertSorted_self s.areas (hb, newBrk) heapArea)
    simpa using this
  have hpw1 : ((RangeMap.insertSorted s.areas (hb, newBrk) heapArea).map
      fun e' => if e'.1 = ((hb, newBrk) : Nat × Nat)
        then ((hb, newBrk), e'.2) else e').Pairwise
      fun e e' => RangeMap.overlap e.1 e'.1 = false := by
    rw [List.pairwise_map]
    refine (pairwise_insertSorted hpw hfreeE).imp ?_
    intro e e' hdisj
    by_cases h1 : e.1 = ((hb, newBrk) : Nat × Nat) <;>
      by_cases h2 : e'.1 = ((hb, newBrk) : Nat × Nat) <;>
      simp only [if_pos, if_neg, h1, h2] <;> simp_all
  have hfh1 : UserVmSpace.findHeap { s with
      areas := (RangeMap.insertSorted s.areas (hb, newBrk) heapArea).map
        fun e' => if e'.1 = ((hb, newBrk) : Nat × Nat)
          then ((hb, newBrk), e'.2) else e' } =
      some ((hb, newBrk), heapArea) := by
    unfold UserVmSpace.findHeap
    have hga : ({ s with
        areas := (RangeMap.insertSorted s.areas (hb, newBrk) heapArea).map
          fun e' => if e'.1 = ((hb, newBrk) : Nat × Nat)
            then ((hb, newBrk), e'.2) else e' } : UserVmSpace).heapBottom =
        hb := rfl
    rw [hga]
    rw [show ({ s with
        areas := (RangeMap.insertSorted s.areas (hb, newBrk) heapArea).map
          fun e' => if e'.1 = ((hb, newBrk) : Nat × Nat)
            then ((hb, newBrk), e'.2) else e' } : UserVmSpace).areas =
      (RangeMap.insertSorted s.areas (hb, newBrk) heapArea).map
        fun e' => if e'.1 = ((hb, newBrk) : Nat × Nat)
          then ((hb, newBrk), e'.2) else e' from rfl]
    rw [get_of_mem hpw1 hmem1 (Nat.le_refl hb) hlt]
    simp [hha, UserVmArea.new]
  refine ⟨{ pt := s.pt, areas := RangeMap.setValAt ((RangeMap.insertSorted s.areas (hb, newBrk) heapArea).map fun e' => if e'.1 = ((hb, newBrk) : Nat × Nat) then ((hb, newBrk), e'.2) else e') (hb, newBrk) heapArea, heapBottom := hb }, ?_, rfl, rfl, ?_⟩
  · unfold UserVmSpace.resetHeapBreak UserVmSpace.resetHeapGrown
    rw [hnone]
    simp [hlt, hpush, hExt, hfh1]
    rfl
  · show _ ∈ RangeMap.setValAt _ _ _
    unfold RangeMap.setValAt
    have := List.mem_map_of_mem (f := fun e =>
      if e.1 = ((hb, newBrk) : Nat × Nat) then (e.1, heapArea) else e) hmem1
    simpa using this

/-- Case `heap.start < new_brk < heap.stop` of `reset_heap_break`: the
heap is shrunk to `new_brk` via `split_off` and the released tail's PTEs
are cleared, while every other mapping survives; `new_brk` is
returned. -/
theorem resetHeap_shrink_lemma (s : UserVmSpace) (st : FrameSt)
    (newBrk : Nat) (key : Nat × Nat) (heap : UserVmArea)
    (hheap : s.findHeap = some (key, heap))
    (hkey : key = (heap.start, heap.stop))
    (hhb : s.heapBottom = heap.start)
    (hpw : s.areas.Pairwise fun e e' => RangeMap.overlap e.1 e'.1 = false)
    (hne : ∀ e ∈ s.areas, e.1.1 < e.1.2)
    (h1 : heap.start < newBrk) (h2 : newBrk < heap.stop)
    (hfw : FramesWf heap.frames)
    (hmapped : ∀ kv ∈ heap.frames, (s.pt kv.1).isSome) :
    ∃ s', s.resetHeapBreak st newBrk = some (newBrk, s', st) ∧
      s'.heapBottom = s.heapBottom ∧
      ((heap.start, newBrk), (heap.splitOff (vaCeil newBrk)).1) ∈
        s'.areas ∧
      (∀ kv ∈ heap.frames, vaCeil newBrk ≤ kv.1 → s'.pt kv.1 = none) ∧
      (∀ v, (∀ kv ∈ heap.frames, vaCeil newBrk ≤ kv.1 → kv.1 ≠ v) →
        s'.pt v = s.pt v) := by
  subst hkey
  obtain ⟨hget, htype⟩ := findHeap_inv hheap
  obtain ⟨hmem, hb1, hb2⟩ := get_eq_some_facts hget
  simp only [] at hb1 hb2
  have hpos : heap.start < heap.stop := hne _ hmem
  have hfind : s.areas.find?
      (fun e => e.1.1 == ((heap.start, newBrk) : Nat × Nat).1) =
      some ((heap.start, heap.stop), heap) :=
    findStart_of_mem hpw hne hmem
  have hRed : s.areas.reduceBack (heap.start, newBrk) =
      some (s.areas.map fun e' =>
        if e'.1 = ((heap.start, heap.stop) : Nat × Nat)
        then ((heap.start, newBrk), e'.2) else e') := by
    unfold RangeMap.reduceBack
    rw [hfind]
    simp [h1, Nat.le_of_lt h2]
  have hmem1 : ((heap.start, newBrk), heap) ∈ s.areas.map fun e' =>
      if e'.1 = ((heap.start, heap.stop) : Nat × Nat)
      then ((heap.start, newBrk), e'.2) else e' := by
    have := List.mem_map_of_mem (f := fun e' =>
      if e'.1 = ((heap.start, heap.stop) : Nat × Nat)
      then ((heap.start, newBrk), e'.2) else e') hmem
    simpa using this
  have hpw1 : (s.areas.map fun e' =>
      if e'.1 = ((heap.start, heap.stop) : Nat × Nat)
      then ((heap.start, newBrk), e'.2) else e').Pairwise
      fun e e' => RangeMap.overlap e.1 e'.1 = false := by
    rw [List.pairwise_map]
    refine hpw.imp ?_
    intro e e' hdisj
    rw [overlap_false] at hdisj
    by_cases ha : e.1 = ((heap.start, heap.stop) : Nat × Nat) <;>
      by_cases hbb : e'.1 = ((heap.start, heap.stop) : Nat × Nat)
    · rw [if_pos ha, if_pos hbb]
      show RangeMap.overlap (heap.start, newBrk) (heap.start, newBrk) = false
      rw [ha, hbb] at hdisj
      rw [overlap_false]
      simp at hdisj ⊢
      omega
    · rw [if_pos ha, if_neg hbb]
      show RangeMap.overlap (heap.start, newBrk) e'.1 = false
      rw [ha] at hdisj
      rw [overlap_false]
      simp at hdisj ⊢
      omega
    · rw [if_neg ha, if_pos hbb]
      show RangeMap.overlap e.1 (heap.start, newBrk) = false
      rw [hbb] at hdisj
      rw [overlap_false]
      simp at hdisj ⊢
      omega
    · rw [if_neg ha, if_neg hbb]
      rw [overlap_false]
      exact hdisj
  have hfh1 : UserVmSpace.findHeap { s with areas := s.areas.map fun e' =>
      if e'.1 = ((heap.start, heap.stop) : Nat × Nat)
      then ((heap.start, newBrk), e'.2) else e' } =
      some ((heap.start, newBrk), heap) := by
    unfold UserVmSpace.findHeap
    rw [show ({ s with areas := s.areas.map fun e' =>
        if e'.1 = ((heap.start, heap.stop) : Nat × Nat)
        then ((heap.start, newBrk), e'.2) else e' } : UserVmSpace).areas =
      s.areas.map fun e' =>
        if e'.1 = ((heap.start, heap.stop) : Nat × Nat)
        then ((heap.start, newBrk), e'.2) else e' from rfl]
    rw [show ({ s with areas := s.areas.map fun e' =>
        if e'.1 = ((heap.start, heap.stop) : Nat × Nat)
        then ((heap.start, newBrk), e'.2) else e' } : UserVmSpace).heapBottom
      = s.heapBottom from rfl]
    rw [hhb]
    rw [get_of_mem hpw1 hmem1 (Nat.le_refl heap.start) h1]
    simp [htype]
  have hfilter : ∀ kv ∈ (heap.splitOff (vaCeil newBrk)).2.frames,
      kv ∈ heap.frames ∧ vaCeil newBrk ≤ kv.1 := by
    intro kv hkv
    unfold UserVmArea.splitOff Frames.splitOff at hkv
    simp at hkv
    exact ⟨hkv.1, hkv.2⟩
  obtain ⟨pt', hgo, hpres, hnone⟩ := unmapAllGo_spec
    (heap.splitOff (vaCeil newBrk)).2.frames s.pt
    (by
      have : (heap.splitOff (vaCeil newBrk)).2.frames =
          heap.frames.filter (fun kv => vaCeil newBrk ≤ kv.1) := by
        unfold UserVmArea.splitOff Frames.splitOff
        simp
      rw [this]
      exact (framesWf_keys_ne hfw).filter _)
    (fun kv hkv => hmapped kv (hfilter kv hkv).1)
  refine ⟨{ pt := pt', areas := RangeMap.setValAt (s.areas.map fun e' => if e'.1 = ((heap.start, heap.stop) : Nat × Nat) then ((heap.start, newBrk), e'.2) else e') (heap.start, newBrk) ((heap.splitOff (vaCeil newBrk)).1), heapBottom := s.heapBottom }, ?_, rfl, ?_, ?_, ?_⟩
  · unfold UserVmSpace.resetHeapBreak UserVmSpace.resetHeapGrown
    rw [hheap]
    have hnotle : ¬ (heap.stop ≤ newBrk) := by omega
    have hunm : (heap.splitOff (vaCeil newBrk)).2.unmapAll s.pt =
        some pt' := hgo
    simp [hnotle, h1, hRed, hfh1, UserVmArea.unmapAll] at hunm ⊢
    rw [hunm]
  · show _ ∈ RangeMap.setValAt _ _ _
    unfold RangeMap.setValAt
    have := List.mem_map_of_mem (f := fun e =>
      if e.1 = ((heap.start, newBrk) : Nat × Nat)
      then (e.1, (heap.splitOff (vaCeil newBrk)).1) else e) hmem1
    simpa using this
  · intro kv hkv hge
    apply hnone
    unfold UserVmArea.splitOff Frames.splitOff
    simp
    exact ⟨hkv, hge⟩
  · intro v hv
    apply hpres
    intro kv hkv
    obtain ⟨hm, hg⟩ := hfilter kv hkv
    exact hv kv hm hg

/-!
## Claim theorems
-/

/-- C1: on a WRITE fault at a vpn whose PTE is valid and carries `C`, with
the area holding a `SharedFrame` for that vpn: if the frame's owner count
is 1, `handle_page_fault` clears `C` and sets `W` in the PTE in place
(same ppn, no allocation, frame state untouched) and returns `Ok`;
otherwise it allocates a fresh frame, copies the old frame's page into
it, replaces `frames[vpn]` with the new sole-owner `SharedFrame`, installs
a PTE with `W` set and `C` clear pointing at the new frame, and returns
`Ok`. -/
theorem cow_write_fault_spec (a : UserVmArea) (env : Env) (pt : PageTable)
    (st : FrameSt) (vpn : Nat) (pte : Pte) (f : Nat)
    (hacc : AccessType.canAccess .write a.mapPerm = true)
    (hpte : pt vpn = some pte) (hval : pte.valid = true)
    (hc : pte.perm.c = true)
    (hf : a.frames.lookup vpn = some f)
    (hbud : st.budget ≠ 0) :
    (st.owners f = 1 →
      a.handlePageFault env pt st vpn .write =
        some (.ok (a, pt.set vpn ⟨pte.ppn, pte.perm.removeC.insertW, true⟩,
          st))) ∧
    (st.owners f ≠ 1 →
      ∃ st', a.handlePageFault env pt st vpn .write =
          some (.ok ({ a with frames := a.frames.setVal vpn st.fresh },
            pt.set vpn ⟨st.fresh, a.mapPerm.removeC.insertW, true⟩, st')) ∧
        st'.mem st.fresh = st.mem f ∧ st'.owners st.fresh = 1 ∧
        st'.fresh = st.fresh + 1 ∧ st'.budget = st.budget - 1) := by
  have hfind : pt.findPte vpn = some pte := by
    simp [PageTable.findPte, hpte, hval]
  constructor
  · intro hone
    unfold UserVmArea.handlePageFault
    rw [hfind]
    simp [hacc, AccessType.isWrite, hc, hf, hone]
  · intro hmany
    refine ⟨((({ st with fresh := st.fresh + 1, budget := st.budget - 1 } : FrameSt).newShared st.fresh).copyPage st.fresh f), ?_, ?_, ?_, ?_, ?_⟩
    · unfold UserVmArea.handlePageFault
      rw [hfind]
      simp [hacc, AccessType.isWrite, hc, hf, hmany, FrameSt.allocTracker1,
        hbud]
    · simp [FrameSt.copyPage, FrameSt.newShared]
    · simp [FrameSt.copyPage, FrameSt.newShared]
    · simp [FrameSt.copyPage, FrameSt.newShared]
    · simp [FrameSt.copyPage, FrameSt.newShared]

/-- Witness for C1: the concrete COW state `c1St` (owner count 1) with a
WRITE fault at vpn `0x10` satisfies all hypotheses, and the handler
rewrites the PTE in place. -/
theorem cow_write_fault_spec_witness :
    AccessType.canAccess .write c1Area.mapPerm = true ∧
    c1Pt 0x10 = some c1Pte ∧ c1Pte.valid = true ∧
    c1Pte.perm.c = true ∧ c1Area.frames.lookup 0x10 = some 7 ∧
    c1St.budget ≠ 0 ∧ c1St.owners 7 = 1 ∧
    c1Area.handlePageFault emptyEnv c1Pt c1St 0x10 .write =
      some (.ok (c1Area,
        c1Pt.set 0x10 ⟨c1Pte.ppn, c1Pte.perm.removeC.insertW, true⟩, c1St)) :=
  ⟨by decide, by decide, by decide, by decide, by decide, by decide,
    by decide,
    (cow_write_fault_spec c1Area emptyEnv c1Pt c1St 0x10 c1Pte 7
      (by decide) (by decide) (by decide) (by decide) (by decide)
      (by decide)).1 (by decide)⟩

end Chronix

namespace Chronix

/-- C9: a page fault on a Shm area — access allowed by the area's perm,
no valid PTE at the vpn — PANICS the kernel (the `panic!("do something")`
stub, the model's `none`); it does not return `Err` for a SIGSEGV. -/
theorem shm_fault_panics (a : UserVmArea) (env : Env) (pt : PageTable)
    (st : FrameSt) (vpn : Nat) (access : AccessType)
    (htype : a.vmaType = .shm)
    (hacc : access.canAccess a.mapPerm = true)
    (hpte : pt.findPte vpn = none) :
    a.handlePageFault env pt st vpn access = none := by
  unfold UserVmArea.handlePageFault
  rw [hpte]
  simp [hacc, htype]

/-- Witness for C9: a write fault on the concrete Shm area `c9Area`. -/
theorem shm_fault_panics_witness :
    c9Area.vmaType = .shm ∧
    AccessType.canAccess .write c9Area.mapPerm = true ∧
    PageTable.empty.findPte 0x20 = none ∧
    c9Area.handlePageFault emptyEnv PageTable.empty c9St 0x20 .write =
      none :=
  ⟨by decide, by decide, by decide,
    shm_fault_panics c9Area emptyEnv PageTable.empty c9St 0x20 .write
      (by decide) (by decide) (by decide)⟩

/-- C5 counterexample: the beyond-file-end fault on the read-only area
`c5Area` succeeds and installs the area's own perm `R|U` — the page is
NOT mapped RW (its `W` bit is false), refuting the claim's "map RW" at
this input; the frame content is the zero page. -/
theorem data_beyond_eof_not_rw :
    c5InstalledPte = some ⟨100, ⟨true, false, false, true, false⟩, true⟩ ∧
    (c5InstalledPte.map fun pte => pte.perm.w) = some false ∧
    c5InstalledPage = some PageData.zero := by decide

/-- C5 (amended): for a file-backed Data area, a fault at a vpn whose file
offset is at or past `offset + len` allocates a fresh zero-filled frame
and maps it with THE AREA'S PERM (not a fixed RW); reading that page
afterwards yields zero bytes. -/
theorem data_beyond_eof_zero_page (a : UserVmArea) (env : Env)
    (pt : PageTable) (st : FrameSt) (vpn : Nat) (access : AccessType)
    (fid : Nat)
    (htype : a.vmaType = .data) (hfile : a.file = some fid)
    (hbeyond : a.len ≤ (vpn - a.startVpn) * PAGE_SIZE)
    (halign : (a.offset + (vpn - a.startVpn) * PAGE_SIZE) % PAGE_SIZE = 0)
    (hacc : access.canAccess a.mapPerm = true)
    (hpte : pt.findPte vpn = none)
    (hbud : st.budget ≠ 0) :
    ∃ st', a.handlePageFault env pt st vpn access =
        some (.ok ({ a with frames := a.frames.insert vpn st.fresh },
          pt.set vpn ⟨st.fresh, a.mapPerm, true⟩, st')) ∧
      st'.mem st.fresh = PageData.zero := by
  refine ⟨(({ st with fresh := st.fresh + 1, budget := st.budget - 1 } : FrameSt).zeroFill st.fresh).newShared st.fresh, ?_, ?_⟩
  · unfold UserVmArea.handlePageFault UserVmArea.dataFault
      UserVmArea.zeroPageFault
    rw [hpte]
    simp [hacc, htype, hfile, halign, Nat.not_lt.2 hbeyond,
      FrameSt.allocTracker1, hbud, PageTable.map, hpte]
  · simp [FrameSt.newShared, FrameSt.zeroFill]

/-- Witness for C5's amended theorem: the concrete `c5Area` read fault. -/
theorem data_beyond_eof_zero_page_witness :
    (c5Area.vmaType = .data ∧ c5Area.file = some 1 ∧
     c5Area.len ≤ (0x11 - c5Area.startVpn) * PAGE_SIZE ∧
     c5St.budget ≠ 0) ∧
    (∃ st', c5Area.handlePageFault emptyEnv PageTable.empty c5St 0x11
          .read =
        some (.ok ({ c5Area with
            frames := c5Area.frames.insert 0x11 c5St.fresh },
          PageTable.empty.set 0x11 ⟨c5St.fresh, c5Area.mapPerm, true⟩,
          st')) ∧
      st'.mem c5St.fresh = PageData.zero) :=
  ⟨⟨by decide, by decide, by decide, by decide⟩,
    data_beyond_eof_zero_page c5Area emptyEnv PageTable.empty c5St 0x11
      .read 1 (by decide) (by decide) (by decide) (by decide) (by decide)
      (by decide) (by decide)⟩

/-- C7: the loongarch64 `PageTable::map` does NOT panic on a double map:
`find_pte_create` returns the slot at the requested level without
checking its validity (so the `.expect("vpn ... is mapped")` can never
fire), and a second `map` of vpn 5 silently overwrites the existing
valid leaf (ppn 100 becomes ppn 200). -/
theorem la_map_double_map_overwrites :
    (LaPageTable.initial.map 5 100 MapPerm.empty .small).isOk = true ∧
    (laAfterFirstMap.mem 2 5).isValid = true ∧
    (laAfterFirstMap.mem 2 5).ppn = 100 ∧
    (laAfterFirstMap.map 5 200 MapPerm.empty .small).isOk = true ∧
    (laAfterSecondMap.mem 2 5).isValid = true ∧
    (laAfterSecondMap.mem 2 5).ppn = 200 := by decide

/-- C10: when growing or shrinking the heap fails because `extend_back`
or `reduce_back` returns `Err` (range collision), `reset_heap_break`
returns the OLD heap end and leaves the space — areas, page table — and
the frame state completely unchanged. -/
theorem reset_heap_break_collision_atomic (s : UserVmSpace) (st : FrameSt)
    (newBrk : Nat) (key : Nat × Nat) (heap : UserVmArea)
    (hheap : s.findHeap = some (key, heap)) :
    (heap.stop ≤ newBrk →
      s.areas.extendBack (heap.start, newBrk) = none →
      s.resetHeapBreak st newBrk = some (heap.stop, s, st)) ∧
    (heap.start < newBrk → newBrk < heap.stop →
      s.areas.reduceBack (heap.start, newBrk) = none →
      s.resetHeapBreak st newBrk = some (heap.stop, s, st)) := by
  constructor
  · intro hle herr
    unfold UserVmSpace.resetHeapBreak
    rw [hheap]
    unfold UserVmSpace.resetHeapGrown
    simp [hle, herr]
  · intro h1 h2 herr
    unfold UserVmSpace.resetHeapBreak
    rw [hheap]
    unfold UserVmSpace.resetHeapGrown
    simp [Nat.not_le.2 h2, h1, herr]

/-- Witness for C10: growing `c10Space`'s heap to `0x30000` collides with
the blocker area; the old end `0x24000` comes back and nothing changes. -/
theorem reset_heap_break_collision_atomic_witness :
    c10Space.findHeap = some ((0x20000, 0x24000), c10Heap) ∧
    c10Heap.stop ≤ 0x30000 ∧
    c10Space.areas.extendBack (c10Heap.start, 0x30000) = none ∧
    c10Space.resetHeapBreak c10St 0x30000 =
      some (c10Heap.stop, c10Space, c10St) :=
  ⟨by decide, by decide, by decide,
    (reset_heap_break_collision_atomic c10Space c10St 0x30000
      (0x20000, 0x24000) c10Heap (by decide)).1 (by decide) (by decide)⟩

end Chronix

namespace Chronix

/-- C4: behaviour of `reset_heap_break(new_brk)` on a well-formed area
map: with no heap and `new_brk > heap_bottom` (range free), a heap
`[heap_bottom, new_brk)` is created and `new_brk` returned; with a heap
`[start, stop)`, the back is extended (grown range free) when
`new_brk ≥ stop`, shrunk to `new_brk` — the released tail unmapped via
`split_off` + `unmap`, all other mappings preserved — when
`start < new_brk < stop`, and left unchanged with `stop` returned when
`new_brk ≤ start`.  The returned value is the effective new break in
every case. -/
theorem reset_heap_break_spec (s : UserVmSpace) (st : FrameSt)
    (newBrk : Nat)
    (hpw : s.areas.Pairwise fun e e' => RangeMap.overlap e.1 e'.1 = false)
    (hne : ∀ e ∈ s.areas, e.1.1 < e.1.2) :
    (s.findHeap = none → s.heapBottom < newBrk →
      RangeMap.isFree s.areas (s.heapBottom, newBrk) = true →
      ∃ s', s.resetHeapBreak st newBrk = some (newBrk, s', st) ∧
        s'.pt = s.pt ∧ s'.heapBottom = s.heapBottom ∧
        ((s.heapBottom, newBrk), UserVmArea.new s.heapBottom newBrk .heap
          ⟨true, true, false, true, false⟩) ∈ s'.areas) ∧
    (∀ key heap, s.findHeap = some (key, heap) →
      key = (heap.start, heap.stop) →
      ((heap.stop ≤ newBrk →
        (∀ e ∈ s.areas, e.1 = key ∨
          RangeMap.overlap e.1 (heap.stop, newBrk) = false) →
        ∃ s', s.resetHeapBreak st newBrk = some (newBrk, s', st) ∧
          s'.pt = s.pt ∧ s'.heapBottom = s.heapBottom ∧
          ((heap.start, newBrk), { heap with stop := newBrk }) ∈
            s'.areas) ∧
      (s.heapBottom = heap.start → heap.start < newBrk →
        newBrk < heap.stop → FramesWf heap.frames →
        (∀ kv ∈ heap.frames, (s.pt kv.1).isSome) →
        ∃ s', s.resetHeapBreak st newBrk = some (newBrk, s', st) ∧
          s'.heapBottom = s.heapBottom ∧
          ((heap.start, newBrk), (heap.splitOff (vaCeil newBrk)).1) ∈
            s'.areas ∧
          (∀ kv ∈ heap.frames, vaCeil newBrk ≤ kv.1 →
            s'.pt kv.1 = none) ∧
          (∀ v, (∀ kv ∈ heap.frames, vaCeil newBrk ≤ kv.1 → kv.1 ≠ v) →
            s'.pt v = s.pt v)) ∧
      (newBrk ≤ heap.start →
        s.resetHeapBreak st newBrk = some (heap.stop, s, st)))) := by
  constructor
  · intro hnone hlt hfree
    exact resetHeap_create_lemma s st newBrk hnone hlt hpw hne hfree
  · intro key heap hheap hkey
    refine ⟨?_, ?_, ?_⟩
    · intro hgrow hext
      exact resetHeap_extend_lemma s st newBrk key heap hheap hkey hpw hne
        hgrow hext
    · intro hhb h1 h2 hfw hmapped
      exact resetHeap_shrink_lemma s st newBrk key heap hheap hkey hhb hpw
        hne h1 h2 hfw hmapped
    · intro hle
      have hpos : heap.start < heap.stop := by
        obtain ⟨hget, _⟩ := findHeap_inv hheap
        obtain ⟨hmem, _, _⟩ := get_eq_some_facts hget
        have := hne _ hmem
        rw [hkey] at this
        exact this
      exact resetHeap_noop_lemma s st newBrk key heap hheap hpos hle

/-- Witness for C4: creating a heap `[0x20000, 0x24000)` in an empty
space returns `0x24000`. -/
theorem reset_heap_break_spec_witness :
    (c4Space.findHeap = none ∧ c4Space.heapBottom < 0x24000 ∧
     RangeMap.isFree c4Space.areas (c4Space.heapBottom, 0x24000) = true) ∧
    (∃ s', c4Space.resetHeapBreak c4St 0x24000 = some (0x24000, s', c4St) ∧
      s'.pt = c4Space.pt ∧ s'.heapBottom = c4Space.heapBottom ∧
      ((c4Space.heapBottom, 0x24000), UserVmArea.new c4Space.heapBottom
        0x24000 .heap ⟨true, true, false, true, false⟩) ∈ s'.areas) :=
  ⟨⟨by decide, by decide, by decide⟩,
    (reset_heap_break_spec c4Space c4St 0x24000 (by decide)
      (by decide)).1 (by decide) (by decide) (by decide)⟩

end Chronix

namespace Chronix

/-- C3: `unmap(0x104000, 0x2000)` on the single fully mapped area
`[0x100000, 0x110000)` returns Ok 0 and splits head
`[0x100000, 0x104000)` and tail `[0x106000, 0x110000)`; the head keeps
its mappings and the middle is unmapped — but the source unmaps `mid`
BEFORE detaching the tail (`riscv64.rs:622`), so the reinserted tail's
PTEs are also cleared: vpn `0x107` still holds its frame in the tail
area yet no longer translates, contradicting the claim that the tail
still translates as before. -/
theorem unmap_clears_tail_mappings :
    c3RetVal = some 0 ∧
    c3SpaceAfter.areas.map (fun e => e.1) =
      [(0x100000, 0x104000), (0x106000, 0x110000)] ∧
    c3SpaceAfter.pt.translateVpn 0x101 = some 51 ∧
    c3SpaceAfter.pt.translateVpn 0x104 = none ∧
    c3SpaceAfter.pt.translateVpn 0x105 = none ∧
    ((c3SpaceAfter.areas.get 0x107000).map fun e => e.2.frames.lookup 0x107)
      = some (some 57) ∧
    c3SpaceAfter.pt.translateVpn 0x107 = none := by decide

end Chronix

namespace Chronix

/-- The facts delivered by a successful `find_free_range`: the chosen
start is in the window, the range fits below the window top, and it is
free. -/
theorem findFreeRange_spec {α : Type} {m : RangeMap α} {w : Nat × Nat}
    {len c : Nat} (h : RangeMap.findFreeRange m w len = some c) :
    w.1 ≤ c ∧ c + len ≤ w.2 ∧ RangeMap.isFree m (c, c + len) = true := by
  unfold RangeMap.findFreeRange at h
  have hmem := List.min?_mem (fun x y => by omega) h
  obtain ⟨-, hp⟩ := List.mem_filter.1 hmem
  rw [Bool.and_eq_true, Bool.and_eq_true, Nat.ble_eq, Nat.ble_eq] at hp
  exact ⟨hp.1.1, hp.1.2, hp.2⟩

/-- The eager-mapping loop stops at once when the first page offset is
already past the file end (cache miss). -/
theorem mmapEagerLoop_eof (env : Env) (fid : Nat) (p : Bool)
    (perm : MapPerm) (n off vpn : Nat) (vma : UserVmArea)
    (pt : PageTable) (st : FrameSt)
    (hcache : env.cache fid off = none) :
    UserVmSpace.mmapEagerLoop env fid p perm n off vpn vma pt st =
      some (vma, pt, st) := by
  cases n with
  | zero => rfl
  | succ m =>
    unfold UserVmSpace.mmapEagerLoop
    rw [hcache]

/-- C6: the claimed start address is not returned in real cases of both
allocators; the calls panic instead.  File-backed: a one-page mmap of a
file with a cached page at the requested offset — the window's first
free range exists (`USER_FILE_BEG`), but the eager loop maps the cached
page AND records it in `frames`, and `push_area` then re-maps every
recorded frame, firing the page table's asserted no-double-map
precondition (a kernel panic, for `MAP_PRIVATE` and `MAP_SHARED`
alike).  Anonymous `MAP_FIXED` on an occupied range: the fallback free
range exists one page up, but `alloc_anon_area` skips the
`is_range_free` check and panics inside `push_area`. -/
theorem mmap_start_not_returned :
    c4Space.areas.findFreeRange (USER_FILE_BEG, USER_FILE_END) 0x1000 =
      some USER_FILE_BEG ∧
    (c4Space.allocMmapArea c4St c6Env 0 0x1000
      ⟨true, false, false, true, false⟩ ⟨false, true, false, false⟩
      7 0).isNone = true ∧
    (c4Space.allocMmapArea c4St c6Env 0 0x1000
      ⟨true, false, false, true, false⟩ ⟨false, false, true, false⟩
      7 0).isNone = true ∧
    c6Space.areas.isFree (USER_SHARE_BEG, USER_SHARE_BEG + 0x1000) =
      false ∧
    c6Space.areas.findFreeRange (USER_SHARE_BEG, USER_SHARE_END) 0x1000 =
      some (USER_SHARE_BEG + 0x1000) ∧
    (c6Space.allocAnonArea USER_SHARE_BEG 0x1000
      ⟨true, true, false, true, false⟩ ⟨true, true, false, true⟩
      false).isNone = true := by decide

end Chronix

namespace Chronix

/-- The head of a list is a member. -/
theorem head?_mem {α : Type} {l : List α} {a : α}
    (h : l.head? = some a) : a ∈ l := by
  cases l with
  | nil => cases h
  | cons x xs =>
    simp at h
    rw [← h]
    exact List.mem_cons_self x xs

/-- C8: the frame allocator.  For `n > 0`: a successful `alloc(n)`
returns a contiguous range of exactly `n` ppns inside the initialised
region whose bits were all free; the matched `dealloc` restores the
bitmap exactly (hence the free count), so allocating again succeeds with
the very same range; `alloc` returns `None` only when no run of `n`
consecutive free frames exists; `dealloc` of an empty range is a
no-op. -/
theorem frame_allocator_alloc_dealloc (al : BitMapFrameAllocator)
    (n : Nat) (hn : 0 < n) :
    (∀ r al', al.alloc n = some (r, al') →
      r.2 - r.1 = n ∧ al.base ≤ r.1 ∧ r.2 ≤ al.base + al.size ∧
      (∀ k, k < n → al.free (r.1 - al.base + k) = true) ∧
      al'.dealloc r = al ∧ (al'.dealloc r).alloc n = some (r, al')) ∧
    (al.alloc n = none → ∀ i, i + n ≤ al.size →
      ∃ k, k < n ∧ al.free (i + k) = false) ∧
    (∀ p, al.dealloc (p, p) = al) := by
  obtain ⟨b, sz, fr⟩ := al
  refine ⟨?_, ?_, ?_⟩
  · intro r al' halloc
    unfold BitMapFrameAllocator.alloc at halloc
    rcases hff : BitMapFrameAllocator.firstFit ⟨b, sz, fr⟩ n with _ | i
    · rw [hff] at halloc; cases halloc
    · rw [hff] at halloc
      obtain ⟨hr, hal'⟩ := Prod.mk.injEq .. ▸ (Option.some.inj halloc)
      have hmem := head?_mem hff
      obtain ⟨hrange, hfits⟩ := List.mem_filter.1 hmem
      have hisz := List.mem_range.1 hrange
      unfold BitMapFrameAllocator.fits at hfits
      rw [Bool.and_eq_true, Nat.ble_eq, List.all_eq_true] at hfits
      obtain ⟨hin, hfree⟩ := hfits
      have hfreek : ∀ k, k < n → fr (i + k) = true := fun k hk =>
        hfree k (List.mem_range.2 hk)
      subst hr hal'
      have hdeq : (BitMapFrameAllocator.setBits ⟨b, sz, fr⟩ i n
          false).dealloc (b + i, b + i + n) = ⟨b, sz, fr⟩ := by
        unfold BitMapFrameAllocator.dealloc BitMapFrameAllocator.setBits
        rw [if_neg (by simp; omega)]
        simp only []
        congr 1
        funext j
        rw [show b + i + n - (b + i) = n from by omega,
          show b + i - b = i from by omega]
        by_cases hj : i ≤ j ∧ j < i + n
        · rw [if_pos hj]
          have := hfreek (j - i) (by omega)
          rw [show i + (j - i) = j from by omega] at this
          exact this.symm
        · rw [if_neg hj, if_neg hj]
      have hin' : i + n ≤ sz := hin
      refine ⟨by omega, Nat.le_add_right b i, by show b + i + n ≤ b + sz; omega, ?_, hdeq, ?_⟩
      · intro k hk
        rw [show b + i - b = i from by omega]
        exact hfreek k hk
      · rw [hdeq]
        unfold BitMapFrameAllocator.alloc
        rw [hff]
  · intro hnone i hle
    unfold BitMapFrameAllocator.alloc at hnone
    rcases hff : BitMapFrameAllocator.firstFit ⟨b, sz, fr⟩ n with _ | j
    · unfold BitMapFrameAllocator.firstFit at hff
      rw [List.head?_eq_none_iff, List.filter_eq_nil_iff] at hff
      have hi := hff i (List.mem_range.2 (by omega))
      unfold BitMapFrameAllocator.fits at hi
      rw [Bool.not_eq_true, Bool.and_eq_false_iff] at hi
      rcases hi with hi | hi
      · rw [show (Nat.ble (i + n) sz) = true from by rw [Nat.ble_eq]; exact hle] at hi
        cases hi
      · rw [List.all_eq_false] at hi
        obtain ⟨k, hk, hfk⟩ := hi
        exact ⟨k, List.mem_range.1 hk, Bool.not_eq_true _ ▸ hfk⟩
    · rw [hff] at hnone; cases hnone
  · intro p
    unfold BitMapFrameAllocator.dealloc
    rw [if_pos (by omega)]

/-- Witness for C8: an 8-frame allocator based at ppn 10 with all frames
free; `alloc(3)` returns `[10, 13)` and behaves as specified. -/
theorem frame_allocator_alloc_dealloc_witness :
    (0 : Nat) < 3 ∧
    (∀ r al', BitMapFrameAllocator.alloc ⟨10, 8, fun _ => true⟩ 3 =
        some (r, al') →
      r.2 - r.1 = 3 ∧ (10 : Nat) ≤ r.1 ∧ r.2 ≤ 10 + 8 ∧
      (∀ k, k < 3 → (fun (_ : Nat) => true) (r.1 - 10 + k) = true) ∧
      al'.dealloc r = ⟨10, 8, fun _ => true⟩ ∧
      (al'.dealloc r).alloc 3 = some (r, al')) :=
  ⟨by decide,
    (frame_allocator_alloc_dealloc ⟨10, 8, fun _ => true⟩ 3
      (by decide)).1⟩

end Chronix

namespace Chronix

/-- Cloning the frame map of an area (`StrongArc` clones) does not touch
the allocator budget. -/
theorem incrAllShared_budget (st : FrameSt) (fs : Frames) :
    (incrAllShared st fs).budget = st.budget := by
  induction fs generalizing st with
  | nil => rfl
  | cons kv rest ih =>
    show (incrAllShared (st.incrShared kv.2) rest).budget = st.budget
    rw [ih]
    rfl

/-- The deep-copy loop of `Clone for UserVmArea` succeeds whenever the
budget covers the map, preserving the key list and consuming one frame
per binding. -/
theorem cloneDeepFrames_spec (st : FrameSt) (fs : Frames)
    (hbud : fs.length ≤ st.budget) :
    ∃ fs' st', UserVmArea.cloneDeepFrames st fs = some (fs', st') ∧
      fs'.map (fun kv => kv.1) = fs.map (fun kv => kv.1) ∧
      st'.budget = st.budget - fs.length := by
  induction fs generalizing st with
  | nil => exact ⟨[], st, rfl, rfl, rfl⟩
  | cons kv rest ih =>
    have hbne : st.budget ≠ 0 := by
      have := hbud
      simp at this
      omega
    have halloc : st.allocTracker1 = some (st.fresh,
        { st with fresh := st.fresh + 1, budget := st.budget - 1 }) := by
      unfold FrameSt.allocTracker1
      rw [if_neg hbne]
    have hbud' : rest.length ≤ (((({ st with fresh := st.fresh + 1, budget := st.budget - 1 } : FrameSt)).copyPage st.fresh kv.2).newShared st.fresh).budget := by
      show rest.length ≤ st.budget - 1
      have := hbud
      simp at this
      omega
    obtain ⟨fs', st', hgo, hkeys, hb⟩ := ih _ hbud'
    refine ⟨(kv.1, st.fresh) :: fs', st', ?_, ?_, ?_⟩
    · show UserVmArea.cloneDeepFrames st (kv :: rest) = _
      unfold UserVmArea.cloneDeepFrames
      rw [show (kv : Nat × Nat) = (kv.1, kv.2) from rfl]
      simp only [halloc, hgo]
    · simp [hkeys]
    · rw [hb]
      show st.budget - 1 - rest.length = st.budget - (kv :: rest).length
      simp
      omega

/-- Success of `clone_cow` on a non-TrapContext area: the returned clone
is the (possibly perm-rewritten) area itself sharing the very same frame
map; for a writable area `W` moves into `C` in the area perm and in
every live PTE (which keeps its ppn); other slots are untouched. -/
theorem cloneCow_ok (a : UserVmArea) (pt : PageTable) (st : FrameSt)
    (htc : ¬ a.vmaType = .trapContext)
    (hwf : FramesWf a.frames)
    (hpt : ∀ kv ∈ a.frames, ∃ pm, pt kv.1 = some ⟨kv.2, pm, true⟩) :
    ∃ a1 pt', a.cloneCow pt st =
        some (.ok (a1, a1, pt', incrAllShared st a.frames)) ∧
      a1 = (if a.mapPerm.w
        then { a with mapPerm := a.mapPerm.insertC.removeW } else a) ∧
      (∀ v, v ∉ a.frames.keys → pt' v = pt v) ∧
      (a.mapPerm.w = true → ∀ kv ∈ a.frames,
        pt' kv.1 = some ⟨kv.2, a.mapPerm.insertC.removeW, true⟩) := by
  have hkeys : a.frames.keys.Pairwise (· ≠ ·) :=
    List.pairwise_map.2 (framesWf_keys_ne hwf)
  have hsome : ∀ k ∈ a.frames.keys,
      ∃ pte, pt k = some pte ∧ pte.valid = true := by
    intro k hk
    obtain ⟨kv, hkv, hfst⟩ := List.mem_map.1 hk
    obtain ⟨pm, hpm⟩ := hpt kv hkv
    exact ⟨⟨kv.2, pm, true⟩, hfst ▸ hpm, rfl⟩
  by_cases hw : a.mapPerm.w = true
  · obtain ⟨pt', hgo, hpres, hsets⟩ := setFlagsAll_spec pt
      (a.mapPerm.insertC.removeW) a.frames.keys hkeys hsome
    refine ⟨{ a with mapPerm := a.mapPerm.insertC.removeW }, pt', ?_, ?_,
      hpres, ?_⟩
    · unfold UserVmArea.cloneCow
      rw [if_neg htc, if_pos hw]
      simp only [hgo]
    · rw [if_pos hw]
    · intro _ kv hkv
      have hk : kv.1 ∈ a.frames.keys := List.mem_map.2 ⟨kv, hkv, rfl⟩
      obtain ⟨pm, hpm⟩ := hpt kv hkv
      exact hsets kv.1 hk ⟨kv.2, pm, true⟩ hpm
  · by_cases hc : a.mapPerm.c = true
    · obtain ⟨pt', hgo, hpres, _⟩ := setFlagsAll_spec pt
        a.mapPerm a.frames.keys hkeys hsome
      refine ⟨a, pt', ?_, ?_, hpres, fun habs => absurd habs hw⟩
      · unfold UserVmArea.cloneCow
        rw [if_neg htc, if_neg hw, if_pos hc]
        simp only [hgo]
      · rw [if_neg hw]
    · refine ⟨a, pt, ?_, ?_, fun v _ => rfl, fun habs => absurd habs hw⟩
      · unfold UserVmArea.cloneCow
        rw [if_neg htc, if_neg hw, if_neg hc]
      · rw [if_neg hw]

/-- Frame keys of two areas stored under disjoint byte ranges are
distinct: each key lies in its area's `range_vpn()`, and the page-aligned
disjoint byte ranges give disjoint vpn ranges. -/
theorem entry_keys_disjoint {e e' : (Nat × Nat) × UserVmArea}
    (h1 : EntryWf e) (h2 : EntryWf e')
    (hov : RangeMap.overlap e.1 e'.1 = false) :
    ∀ kv ∈ e.2.frames, ∀ kv' ∈ e'.2.frames, kv.1 ≠ kv'.1 := by
  intro kv hkv kv' hkv' heq
  obtain ⟨hk1, ha1, hb1, hlt1, _, hrange1⟩ := h1
  obtain ⟨hk2, ha2, hb2, hlt2, _, hrange2⟩ := h2
  have r1 := hrange1 kv hkv
  have r2 := hrange2 kv' hkv'
  have hov' : ¬ (max e.2.start e'.2.start < min e.2.stop e'.2.stop) := by
    rw [hk1, hk2, overlap_false] at hov
    exact hov
  simp only [UserVmArea.startVpn, UserVmArea.endVpn, vaFloor, vaCeil,
    PAGE_SIZE] at r1 r2
  simp only [PAGE_SIZE] at ha1 hb1 ha2 hb2
  omega

/-- Success of `push_area` on a free, non-empty range whose frames are
not yet mapped in the space: the area is inserted in range order and
every frame gets a valid leaf with the area's perm; other slots are
untouched. -/
theorem pushArea_spec (s : UserVmSpace) (b : UserVmArea)
    (hne : b.start < b.stop)
    (hfree : RangeMap.isFree s.areas (b.start, b.stop) = true)
    (hdis : b.frames.Pairwise fun x y => x.1 ≠ y.1)
    (hnone : ∀ kv ∈ b.frames, s.pt kv.1 = none) :
    ∃ pt', s.pushArea b = some (UserVmSpace.mk pt'
        (RangeMap.insertSorted s.areas (b.start, b.stop) b)
        s.heapBottom) ∧
      (∀ v, (∀ kv ∈ b.frames, kv.1 ≠ v) → pt' v = s.pt v) ∧
      ∀ kv ∈ b.frames, pt' kv.1 = some ⟨kv.2, b.mapPerm, true⟩ := by
  obtain ⟨pt', hgo, hpres, hmaps⟩ := mapAllGo_spec b b.frames s.pt hdis hnone
  have htry : s.areas.tryInsert (b.start, b.stop) b =
      some (RangeMap.insertSorted s.areas (b.start, b.stop) b) := by
    unfold RangeMap.tryInsert
    rw [if_pos ⟨hne, hfree⟩]
  have hmap : b.mapAll s.pt = some pt' := hgo
  refine ⟨pt', ?_, hpres, hmaps⟩
  simp only [UserVmSpace.pushArea, htry, hmap]

end Chronix

namespace Chronix

/-- The loop invariant of `from_existed`: over well-formed, pairwise
disjoint source entries whose frames are live in the parent table, with
the child free at their ranges and unmapped at their keys and enough
budget for the TrapContext deep copies, the loop succeeds; every
writable non-TrapContext source area reappears — in the rebuilt parent
list and in the child map — with `W` moved into `C` and the same frame
map, and both tables hold, at each of its frame keys, a valid leaf at
that frame with the rewritten perm.  Slots outside the processed keys
are untouched on both sides, and existing child entries survive. -/
theorem fromExistedGo_spec (rem : List ((Nat × Nat) × UserVmArea))
    (pt : PageTable) (acc : List ((Nat × Nat) × UserVmArea))
    (ret : UserVmSpace) (st : FrameSt)
    (hwf : ∀ e ∈ rem, EntryWf e)
    (hpt : ∀ e ∈ rem, ∀ kv ∈ e.2.frames,
      ∃ pm, pt kv.1 = some ⟨kv.2, pm, true⟩)
    (hdisj : rem.Pairwise fun e e' => RangeMap.overlap e.1 e'.1 = false)
    (hfree : ∀ e ∈ rem,
      RangeMap.isFree ret.areas (e.2.start, e.2.stop) = true)
    (hchild : ∀ e ∈ rem, ∀ kv ∈ e.2.frames, ret.pt kv.1 = none)
    (hbud : sumFrames rem ≤ st.budget) :
    ∃ pt2 out ret2 st2,
      UserVmSpace.fromExistedGo rem pt acc ret st =
        some (pt2, acc.reverse ++ out, ret2, st2) ∧
      (∀ e' ∈ ret.areas, e' ∈ ret2.areas) ∧
      (∀ v, (∀ e ∈ rem, ∀ kv ∈ e.2.frames, kv.1 ≠ v) → pt2 v = pt v) ∧
      (∀ v, (∀ e ∈ rem, ∀ kv ∈ e.2.frames, kv.1 ≠ v) →
        ret2.pt v = ret.pt v) ∧
      ∀ key a, (key, a) ∈ rem → a.mapPerm.w = true →
        ¬ a.vmaType = .trapContext →
        (key, { a with mapPerm := a.mapPerm.insertC.removeW }) ∈ out ∧
        ((a.start, a.stop),
          { a with mapPerm := a.mapPerm.insertC.removeW }) ∈ ret2.areas ∧
        ∀ kv ∈ a.frames,
          pt2 kv.1 = some ⟨kv.2, a.mapPerm.insertC.removeW, true⟩ ∧
          ret2.pt kv.1 = some ⟨kv.2, a.mapPerm.insertC.removeW, true⟩ := by
  induction rem generalizing pt acc ret st with
  | nil =>
    refine ⟨pt, [], ret, st, ?_, fun e' h => h, fun v _ => rfl,
      fun v _ => rfl, fun key a h => absurd h (List.not_mem_nil _)⟩
    show some (pt, acc.reverse, ret, st) = some (pt, acc.reverse ++ [], ret, st)
    rw [List.append_nil]
  | cons e0 rest ih =>
    obtain ⟨key0, a0⟩ := e0
    have hwf0 := hwf _ (List.mem_cons_self _ _)
    obtain ⟨hk0, hsa, hsb, hlt0, hfwf0, hrange0⟩ := hwf0
    have hk0p : key0 = (a0.start, a0.stop) := hk0
    have hwfR : ∀ e ∈ rest, EntryWf e :=
      fun e he => hwf e (List.mem_cons_of_mem _ he)
    have hdisj0 : ∀ e ∈ rest, RangeMap.overlap key0 e.1 = false :=
      (List.pairwise_cons.1 hdisj).1
    have hdisjR := (List.pairwise_cons.1 hdisj).2
    have hKdisj : ∀ e ∈ rest, ∀ kv ∈ a0.frames, ∀ kv' ∈ e.2.frames,
        kv.1 ≠ kv'.1 :=
      fun e he => entry_keys_disjoint (hwf _ (List.mem_cons_self _ _))
        (hwfR e he) (hdisj0 e he)
    have hbud0 : a0.frames.length + sumFrames rest ≤ st.budget := by
      have := hbud
      simp only [sumFrames, List.map_cons, List.sum_cons] at this
      exact this
    by_cases htc : a0.vmaType = .trapContext
    · -- TrapContext: clone_cow fails, deep copy
      have hcc : a0.cloneCow pt st = some (.error ()) := by
        unfold UserVmArea.cloneCow
        rw [if_pos htc]
      obtain ⟨fs2, stD, hcd, hkeysD, hbudD⟩ :=
        cloneDeepFrames_spec st a0.frames (by omega)
      have hclone : a0.cloneDeep st = some ({ a0 with frames := fs2 }, stD) := by
        unfold UserVmArea.cloneDeep
        rw [hcd]
      have hdisC : fs2.Pairwise fun x y => x.1 ≠ y.1 := by
        have h1 : (a0.frames.map (fun kv => kv.1)).Pairwise (· ≠ ·) :=
          List.pairwise_map.2 (framesWf_keys_ne hfwf0)
        have h2 : (fs2.map (fun kv => kv.1)).Pairwise (· ≠ ·) := by
          rw [hkeysD]
          exact h1
        exact List.pairwise_map.1 h2
      have hkeymem : ∀ kv ∈ fs2, ∃ kv0 ∈ a0.frames, kv0.1 = kv.1 := by
        intro kv hkv
        have hm : kv.1 ∈ fs2.map (fun kv => kv.1) :=
          List.mem_map.2 ⟨kv, hkv, rfl⟩
        rw [hkeysD] at hm
        obtain ⟨kv0, hkv0, he0⟩ := List.mem_map.1 hm
        exact ⟨kv0, hkv0, he0⟩
      obtain ⟨ptC, hpushC, hpresC, _⟩ := pushArea_spec ret
        { a0 with frames := fs2 } hlt0
        (hfree _ (List.mem_cons_self _ _)) hdisC
        (by
          intro kv hkv
          obtain ⟨kv0, hkv0, he0⟩ := hkeymem kv hkv
          rw [← he0]
          exact hchild _ (List.mem_cons_self _ _) kv0 hkv0)
      obtain ⟨pt2, out, ret2, st2, hgoR, hmono, hppres, hcpres, hmain⟩ :=
        ih pt ((key0, a0) :: acc)
          (UserVmSpace.mk ptC
            (RangeMap.insertSorted ret.areas (a0.start, a0.stop)
              { a0 with frames := fs2 })
            ret.heapBottom) stD
          hwfR
          (fun e he kv hkv => hpt e (List.mem_cons_of_mem _ he) kv hkv)
          hdisjR
          (by
            intro e he
            rw [RangeMap.isFree, List.all_eq_true]
            intro e' he'
            simp only [Bool.not_eq_true']
            rcases mem_of_insertSorted he' with he1 | he1
            · have hov := hdisj0 e he
              rw [hk0p, (hwfR e he).1] at hov
              rw [he1]
              exact hov
            · exact isFree_spec.1 (hfree e (List.mem_cons_of_mem _ he)) e' he1)
          (by
            intro e he kv hkv
            show ptC kv.1 = none
            rw [hpresC kv.1 ?_]
            · exact hchild e (List.mem_cons_of_mem _ he) kv hkv
            · intro kv2 hkv2
              obtain ⟨kv0, hkv0, he0⟩ := hkeymem kv2 hkv2
              rw [← he0]
              exact hKdisj e he kv0 hkv0 kv hkv)
          (by rw [hbudD]; omega)
      refine ⟨pt2, (key0, a0) :: out, ret2, st2, ?_, ?_, ?_, ?_, ?_⟩
      · show UserVmSpace.fromExistedGo ((key0, a0) :: rest) pt acc ret st = _
        simp only [UserVmSpace.fromExistedGo, hcc, hclone, hpushC]
        rw [hgoR, List.reverse_cons, List.append_assoc]
        rfl
      · intro e' he'
        exact hmono e' (mem_insertSorted_of_mem he' _ _)
      · intro v hv
        exact hppres v (fun e he kv hkv => hv e (List.mem_cons_of_mem _ he) kv hkv)
      · intro v hv
        have h1 : ret2.pt v = ptC v :=
          hcpres v (fun e he kv hkv => hv e (List.mem_cons_of_mem _ he) kv hkv)
        rw [h1]
        refine hpresC v ?_
        intro kv2 hkv2
        obtain ⟨kv0, hkv0, he0⟩ := hkeymem kv2 hkv2
        rw [← he0]
        exact hv _ (List.mem_cons_self _ _) kv0 hkv0
      · intro key a hmem hw2 htc2
        rcases List.mem_cons.1 hmem with hh | hh
        · rw [Prod.mk.injEq] at hh
          obtain ⟨hk, ha⟩ := hh
          subst ha
          exact absurd htc htc2
        · have := hmain key a hh hw2 htc2
          exact ⟨List.mem_cons_of_mem _ this.1, this.2.1, this.2.2⟩
    · -- non-TrapContext: COW clone
      obtain ⟨a1, ptP, hcc, ha1, hppres0, hpmaps⟩ :=
        cloneCow_ok a0 pt st htc hfwf0 (hpt _ (List.mem_cons_self _ _))
      have hsf : a1.start = a0.start ∧ a1.stop = a0.stop ∧
          a1.frames = a0.frames := by
        rw [ha1]
        by_cases hw0 : a0.mapPerm.w = true <;> simp [hw0]
      have hnotkey : ∀ kv ∈ a0.frames, ∀ e ∈ rest, ∀ kv' ∈ e.2.frames,
          kv'.1 ≠ kv.1 :=
        fun kv hkv e he kv' hkv' => (hKdisj e he kv hkv kv' hkv').symm
      obtain ⟨ptC, hpushC, hpresC, hmapsC⟩ := pushArea_spec ret a1
        (by rw [hsf.1, hsf.2.1]; exact hlt0)
        (by rw [hsf.1, hsf.2.1]; exact hfree _ (List.mem_cons_self _ _))
        (by rw [hsf.2.2]; exact framesWf_keys_ne hfwf0)
        (by
          rw [hsf.2.2]
          exact fun kv hkv => hchild _ (List.mem_cons_self _ _) kv hkv)
      obtain ⟨pt2, out, ret2, st2, hgoR, hmono, hppres, hcpres, hmain⟩ :=
        ih ptP ((key0, a1) :: acc)
          (UserVmSpace.mk ptC
            (RangeMap.insertSorted ret.areas (a1.start, a1.stop) a1)
            ret.heapBottom)
          (incrAllShared st a0.frames)
          hwfR
          (by
            intro e he kv hkv
            rw [hppres0 kv.1 ?_]
            · exact hpt e (List.mem_cons_of_mem _ he) kv hkv
            · intro hmem2
              obtain ⟨kv0, hkv0, he0⟩ := List.mem_map.1 hmem2
              exact hKdisj e he kv0 hkv0 kv hkv he0)
          hdisjR
          (by
            intro e he
            rw [RangeMap.isFree, List.all_eq_true]
            intro e' he'
            simp only [Bool.not_eq_true']
            rcases mem_of_insertSorted he' with he1 | he1
            · have hov := hdisj0 e he
              rw [hk0p, (hwfR e he).1] at hov
              rw [he1, hsf.1, hsf.2.1]
              exact hov
            · exact isFree_spec.1 (hfree e (List.mem_cons_of_mem _ he)) e' he1)
          (by
            intro e he kv hkv
            show ptC kv.1 = none
            rw [hpresC kv.1 ?_]
            · exact hchild e (List.mem_cons_of_mem _ he) kv hkv
            · rw [hsf.2.2]
              exact fun kv2 hkv2 => hKdisj e he kv2 hkv2 kv hkv)
          (by rw [incrAllShared_budget]; omega)
      refine ⟨pt2, (key0, a1) :: out, ret2, st2, ?_, ?_, ?_, ?_, ?_⟩
      · show UserVmSpace.fromExistedGo ((key0, a0) :: rest) pt acc ret st = _
        simp only [UserVmSpace.fromExistedGo, hcc, hpushC]
        rw [hgoR, List.reverse_cons, List.append_assoc]
        rfl
      · intro e' he'
        exact hmono e' (mem_insertSorted_of_mem he' _ _)
      · intro v hv
        have h1 : pt2 v = ptP v :=
          hppres v (fun e he kv hkv => hv e (List.mem_cons_of_mem _ he) kv hkv)
        rw [h1]
        refine hppres0 v ?_
        intro hmem2
        obtain ⟨kv0, hkv0, he0⟩ := List.mem_map.1 hmem2
        exact hv _ (List.mem_cons_self _ _) kv0 hkv0 he0
      · intro v hv
        have h1 : ret2.pt v = ptC v :=
          hcpres v (fun e he kv hkv => hv e (List.mem_cons_of_mem _ he) kv hkv)
        rw [h1]
        refine hpresC v ?_
        rw [hsf.2.2]
        exact fun kv hkv => hv _ (List.mem_cons_self _ _) kv hkv
      · intro key a hmem hw2 htc2
        rcases List.mem_cons.1 hmem with hh | hh
        · rw [Prod.mk.injEq] at hh
          obtain ⟨hk, ha⟩ := hh
          subst hk
          subst ha
          have ha1w : a1 = { a with mapPerm := a.mapPerm.insertC.removeW } := by
            rw [ha1, if_pos hw2]
          refine ⟨?_, ?_, ?_⟩
          · rw [← ha1w]
            exact List.mem_cons_self _ _
          · rw [← ha1w]
            have hm1 : ((a1.start, a1.stop), a1) ∈
                RangeMap.insertSorted ret.areas (a1.start, a1.stop) a1 :=
              mem_insertSorted_self _ _ _
            have hm2 := hmono _ hm1
            rw [hsf.1, hsf.2.1] at hm2
            exact hm2
          · intro kv hkv
            have hout : ∀ e ∈ rest, ∀ kv2 ∈ e.2.frames, kv2.1 ≠ kv.1 :=
              fun e he kv2 hkv2 => hnotkey kv hkv e he kv2 hkv2
            constructor
            · rw [hppres kv.1 hout]
              exact hpmaps hw2 kv hkv
            · rw [hcpres kv.1 hout]
              have hm := hmapsC kv (hsf.2.2.symm ▸ hkv)
              rw [ha1w] at hm
              exact hm
        · have := hmain key a hh hw2 htc2
          exact ⟨List.mem_cons_of_mem _ this.1, this.2.1, this.2.2⟩

end Chronix

namespace Chronix

/-- C2: after `clone_cow` has been applied by `from_existed` to every
writable, non-TrapContext area of a well-formed space V, producing the
areas pushed into the forked space V': every VPN that was mapped
writable in V is mapped in both V and V' with `W` clear and `C` set —
in the area's perm and in both PTEs — and the areas of V and V' hold
the same `SharedFrame` (the identical frame map, both PTEs at the
binding's ppn). -/
theorem clone_cow_fork_invariant (uvm : UserVmSpace) (st : FrameSt)
    (hwf : ∀ e ∈ uvm.areas, EntryWf e)
    (hpt : ∀ e ∈ uvm.areas, ∀ kv ∈ e.2.frames,
      ∃ pm, uvm.pt kv.1 = some ⟨kv.2, pm, true⟩)
    (hdisj : uvm.areas.Pairwise fun e e' => RangeMap.overlap e.1 e'.1 = false)
    (hbud : sumFrames uvm.areas ≤ st.budget) :
    ∃ uvm2 child st2, uvm.fromExisted st = some (uvm2, child, st2) ∧
      ∀ key a, (key, a) ∈ uvm.areas → a.mapPerm.w = true →
        ¬ a.vmaType = .trapContext →
        (key, { a with mapPerm := a.mapPerm.insertC.removeW }) ∈ uvm2.areas ∧
        ((a.start, a.stop),
          { a with mapPerm := a.mapPerm.insertC.removeW }) ∈ child.areas ∧
        (a.mapPerm.insertC.removeW).w = false ∧
        (a.mapPerm.insertC.removeW).c = true ∧
        ∀ kv ∈ a.frames,
          uvm2.pt kv.1 = some ⟨kv.2, a.mapPerm.insertC.removeW, true⟩ ∧
          child.pt kv.1 = some ⟨kv.2, a.mapPerm.insertC.removeW, true⟩ := by
  obtain ⟨pt2, out, ret2, st2, hgo, hmono, hpp, hcp, hmain⟩ :=
    fromExistedGo_spec uvm.areas uvm.pt []
      (UserVmSpace.mk PageTable.empty [] uvm.heapBottom) st
      hwf hpt hdisj (fun e _ => rfl) (fun e _ kv _ => rfl) hbud
  refine ⟨{ uvm with pt := pt2, areas := out }, ret2, st2, ?_, ?_⟩
  · unfold UserVmSpace.fromExisted
    simp only []
    rw [hgo]
    rfl
  · intro key a hmem hw2 htc2
    obtain ⟨h1, h2, h3⟩ := hmain key a hmem hw2 htc2
    exact ⟨h1, h2, rfl, rfl, h3⟩

/-- Witness: the one-writable-area parent `c2Space` forks successfully
and satisfies the C2 conclusion. -/
theorem clone_cow_fork_invariant_witness :
    sumFrames c2Space.areas ≤ c2St.budget ∧
    ∃ uvm2 child st2, c2Space.fromExisted c2St = some (uvm2, child, st2) ∧
      ∀ key a, (key, a) ∈ c2Space.areas → a.mapPerm.w = true →
        ¬ a.vmaType = .trapContext →
        (key, { a with mapPerm := a.mapPerm.insertC.removeW }) ∈ uvm2.areas ∧
        ((a.start, a.stop),
          { a with mapPerm := a.mapPerm.insertC.removeW }) ∈ child.areas ∧
        (a.mapPerm.insertC.removeW).w = false ∧
        (a.mapPerm.insertC.removeW).c = true ∧
        ∀ kv ∈ a.frames,
          uvm2.pt kv.1 = some ⟨kv.2, a.mapPerm.insertC.removeW, true⟩ ∧
          child.pt kv.1 = some ⟨kv.2, a.mapPerm.insertC.removeW, true⟩ :=
  ⟨by decide,
    clone_cow_fork_invariant c2Space c2St (by decide)
      (by
        intro e he kv hkv
        have he' : e = ((0x30000, 0x31000), c2Area) := List.mem_singleton.1 he
        subst he'
        have hkv' : kv = (0x30, 9) := List.mem_singleton.1 hkv
        subst hkv'
        exact ⟨c2Perm, rfl⟩)
      (by decide) (by decide)⟩

end Chronix
